import Mathlib

/-!
Verification development for `electrumx/lib/tx.py`: a shallow embedding of the
cursor-based byte reader, the varint codec, the legacy/SegWit transaction
decode algorithm and several fork specializations (Litecoin MWEB, Zcash,
Decred, Equihash/Primecoin headers), together with theorems checking the
natural-language specification of that module against the code.

Bytes are modelled as `List Nat` (each entry a byte value), the cursor as an
explicit position threaded through the readers, and fallible reads return
`Option` (`none` models an `IndexError` / `struct.error` / failed `assert`
aborting the decode).
-/

abbrev Bytes := List Nat

/-- Little-endian interpretation of a byte list (first byte least
significant), as produced by `unpack_le_uintNN_from`. -/
def leNat : Bytes → Nat
  | [] => 0
  | b :: bs => b + 256 * leNat bs

/-- Little-endian encoding of `n` into exactly `w` bytes (truncating), the
shape shared by the `pack_le_*` helpers. -/
def leBytes : Nat → Nat → Bytes
  | 0, _ => []
  | w + 1, n => n % 256 :: leBytes w (n / 256)

/-- Two's-complement reinterpretation of a `w`-byte unsigned value, as done by
the signed unpackers (`unpack_le_int32_from`, `unpack_le_int64_from`). -/
def toSigned (w : Nat) (u : Nat) : Int :=
  if u < 2 ^ (8 * w - 1) then (u : Int) else (u : Int) - 2 ^ (8 * w)

/-- Embedding of `Deserializer._read_byte`: `self.binary[cursor]` raises
`IndexError` (here `none`) when the position is past the end. -/
def Deserializer.read_byte (buf : Bytes) (pos : Nat) : Option (Nat × Nat) :=
  match (buf.drop pos).head? with
  | some b => some (b, pos + 1)
  | none => none

/-- Embedding of `Deserializer._read_nbytes`: checks
`binary_length >= cursor + n` (the `assert`) and returns the slice. -/
def Deserializer.read_nbytes (buf : Bytes) (pos n : Nat) : Option (Bytes × Nat) :=
  if pos + n ≤ buf.length then some ((buf.drop pos).take n, pos + n) else none

/-- Shared shape of the fixed-width little-endian unsigned readers
(`struct.unpack_from` fails when fewer than `w` bytes remain). -/
def readLE (w : Nat) (buf : Bytes) (pos : Nat) : Option (Nat × Nat) :=
  (Deserializer.read_nbytes buf pos w).map fun r => (leNat r.1, r.2)

/-- Embedding of `Deserializer._read_le_uint16`. -/
def Deserializer.read_le_uint16 (buf : Bytes) (pos : Nat) : Option (Nat × Nat) :=
  readLE 2 buf pos

/-- Embedding of `Deserializer._read_le_uint32`. -/
def Deserializer.read_le_uint32 (buf : Bytes) (pos : Nat) : Option (Nat × Nat) :=
  readLE 4 buf pos

/-- Embedding of `Deserializer._read_le_uint64`. -/
def Deserializer.read_le_uint64 (buf : Bytes) (pos : Nat) : Option (Nat × Nat) :=
  readLE 8 buf pos

/-- Embedding of `Deserializer._read_le_int32` (signed). -/
def Deserializer.read_le_int32 (buf : Bytes) (pos : Nat) : Option (Int × Nat) :=
  (readLE 4 buf pos).map fun r => (toSigned 4 r.1, r.2)

/-- Embedding of `Deserializer._read_le_int64` (signed). -/
def Deserializer.read_le_int64 (buf : Bytes) (pos : Nat) : Option (Int × Nat) :=
  (readLE 8 buf pos).map fun r => (toSigned 8 r.1, r.2)

/-- Embedding of `Deserializer._read_varint`: one byte `n`; `n` itself when
`n < 253`; the next 2 bytes LE when `n == 253`; 4 bytes when `n == 254`;
otherwise 8 bytes. No minimality requirement. -/
def Deserializer.read_varint (buf : Bytes) (pos : Nat) : Option (Nat × Nat) :=
  (Deserializer.read_byte buf pos).bind fun r =>
    if r.1 < 253 then some (r.1, r.2)
    else if r.1 = 253 then Deserializer.read_le_uint16 buf r.2
    else if r.1 = 254 then Deserializer.read_le_uint32 buf r.2
    else Deserializer.read_le_uint64 buf r.2

/-- Embedding of `Deserializer._read_varbytes`. -/
def Deserializer.read_varbytes (buf : Bytes) (pos : Nat) : Option (Bytes × Nat) :=
  (Deserializer.read_varint buf pos).bind fun r =>
    Deserializer.read_nbytes buf r.2 r.1

/-- Embedding of the `[read() for _ in range(k)]` list-reading pattern. -/
def read_list {α : Type} (f : Bytes → Nat → Option (α × Nat)) :
    Nat → Bytes → Nat → Option (List α × Nat)
  | 0, _, pos => some ([], pos)
  | k + 1, buf, pos =>
    (f buf pos).bind fun r =>
      (read_list f k buf r.2).map fun rs => (r.1 :: rs.1, rs.2)

/-- Transaction input record, mirroring `TxInput` in the source. -/
structure TxInput where
  prev_hash : Bytes
  prev_idx : Nat
  script : Bytes
  sequence : Nat
deriving DecidableEq

/-- Transaction output record, mirroring `TxOutput` in the source. -/
structure TxOutput where
  value : Int
  pk_script : Bytes
deriving DecidableEq

/-- Legacy transaction record, mirroring `Tx` in the source. -/
structure Tx where
  version : Int
  inputs : List TxInput
  outputs : List TxOutput
  locktime : Nat
deriving DecidableEq

/-- SegWit transaction record, mirroring `TxSegWit` in the source. -/
structure TxSegWit where
  version : Int
  marker : Nat
  flag : Nat
  inputs : List TxInput
  outputs : List TxOutput
  witness : List (List Bytes)
  locktime : Nat
deriving DecidableEq

/-- Result value of the SegWit-family decoders, which return either a legacy
`Tx` (nonzero peeked byte) or a `TxSegWit`. -/
inductive ParsedTx where
  | legacy (tx : Tx)
  | segwit (tx : TxSegWit)
deriving DecidableEq

/-- Embedding of `Deserializer._read_input`. -/
def Deserializer.read_input (buf : Bytes) (pos : Nat) : Option (TxInput × Nat) :=
  (Deserializer.read_nbytes buf pos 32).bind fun r1 =>
  (Deserializer.read_le_uint32 buf r1.2).bind fun r2 =>
  (Deserializer.read_varbytes buf r2.2).bind fun r3 =>
  (Deserializer.read_le_uint32 buf r3.2).map fun r4 =>
  (⟨r1.1, r2.1, r3.1, r4.1⟩, r4.2)

/-- Embedding of `Deserializer._read_inputs` (varint count, then inputs). -/
def Deserializer.read_inputs (buf : Bytes) (pos : Nat) : Option (List TxInput × Nat) :=
  (Deserializer.read_varint buf pos).bind fun r =>
    read_list Deserializer.read_input r.1 buf r.2

/-- Embedding of `Deserializer._read_output`. -/
def Deserializer.read_output (buf : Bytes) (pos : Nat) : Option (TxOutput × Nat) :=
  (Deserializer.read_le_int64 buf pos).bind fun r1 =>
  (Deserializer.read_varbytes buf r1.2).map fun r2 =>
  (⟨r1.1, r2.1⟩, r2.2)

/-- Embedding of `Deserializer._read_outputs` (varint count, then outputs). -/
def Deserializer.read_outputs (buf : Bytes) (pos : Nat) : Option (List TxOutput × Nat) :=
  (Deserializer.read_varint buf pos).bind fun r =>
    read_list Deserializer.read_output r.1 buf r.2

/-- Embedding of `Deserializer.read_tx`: version, inputs, outputs, locktime. -/
def Deserializer.read_tx (buf : Bytes) (pos : Nat) : Option (Tx × Nat) :=
  (Deserializer.read_le_int32 buf pos).bind fun r1 =>
  (Deserializer.read_inputs buf r1.2).bind fun r2 =>
  (Deserializer.read_outputs buf r2.2).bind fun r3 =>
  (Deserializer.read_le_uint32 buf r3.2).map fun r4 =>
  (⟨r1.1, r2.1, r3.1, r4.1⟩, r4.2)

/-- Embedding of `Deserializer.read_tx_and_hash`; the double-SHA256 collaborator
is abstracted as the `hashFn` parameter. -/
def Deserializer.read_tx_and_hash (hashFn : Bytes → Bytes) (buf : Bytes) (start : Nat) :
    Option ((Tx × Bytes) × Nat) :=
  (Deserializer.read_tx buf start).map fun r =>
    ((r.1, hashFn ((buf.drop start).take (r.2 - start))), r.2)

/-- Embedding of `DeserializerSegWit._read_witness_field`: a varint item count,
then that many varbytes items. -/
def DeserializerSegWit.read_witness_field (buf : Bytes) (pos : Nat) :
    Option (List Bytes × Nat) :=
  (Deserializer.read_varint buf pos).bind fun r =>
    read_list Deserializer.read_varbytes r.1 buf r.2

/-- Embedding of `DeserializerSegWit._read_witness`: one witness stack per
requested field. -/
def DeserializerSegWit.read_witness (buf : Bytes) (fields : Nat) (pos : Nat) :
    Option (List (List Bytes) × Nat) :=
  read_list DeserializerSegWit.read_witness_field fields buf pos

/-- Embedding of `DeserializerSegWit._read_tx_parts`: peeks the byte at
`start + 4`; nonzero takes the legacy layout, zero the SegWit layout with
marker/flag, witness stacks, the reconstructed non-witness serialization as
hash preimage, and `vsize = (3 * base_size + binary_length) // 4`. The value
component is `(tx, tx_hash, vsize)` and the second component the final
cursor. -/
def DeserializerSegWit.read_tx_parts (hashFn : Bytes → Bytes) (buf : Bytes)
    (start : Nat) : Option ((ParsedTx × Bytes × Nat) × Nat) :=
  (Deserializer.read_byte buf (start + 4)).bind fun pk =>
  if pk.1 ≠ 0 then
    (Deserializer.read_le_int32 buf start).bind fun r1 =>
    (Deserializer.read_inputs buf r1.2).bind fun r2 =>
    (Deserializer.read_outputs buf r2.2).bind fun r3 =>
    (Deserializer.read_le_uint32 buf r3.2).map fun r4 =>
    ((ParsedTx.legacy ⟨r1.1, r2.1, r3.1, r4.1⟩,
      hashFn ((buf.drop start).take (r4.2 - start)), buf.length), r4.2)
  else
    (Deserializer.read_le_int32 buf start).bind fun r1 =>
    (Deserializer.read_byte buf r1.2).bind fun rm =>
    (Deserializer.read_byte buf rm.2).bind fun rf =>
    (Deserializer.read_inputs buf rf.2).bind fun r2 =>
    (Deserializer.read_outputs buf r2.2).bind fun r3 =>
    (DeserializerSegWit.read_witness buf r2.1.length r3.2).bind fun rw =>
    (Deserializer.read_le_uint32 buf rw.2).map fun rl =>
    ((ParsedTx.segwit ⟨r1.1, rm.1, rf.1, r2.1, r3.1, rw.1, rl.1⟩,
      hashFn ((buf.drop start).take (r1.2 - start) ++
        ((buf.drop rf.2).take (r3.2 - rf.2) ++
          (buf.drop rw.2).take (rl.2 - rw.2))),
      (3 * (r3.2 - rf.2) + buf.length) / 4), rl.2)

/-- Embedding of `DeserializerSegWit.read_tx_and_hash` (drops the vsize). -/
def DeserializerSegWit.read_tx_and_hash (hashFn : Bytes → Bytes) (buf : Bytes)
    (start : Nat) : Option ((ParsedTx × Bytes) × Nat) :=
  (DeserializerSegWit.read_tx_parts hashFn buf start).map fun r =>
    ((r.1.1, r.1.2.1), r.2)

/-- Outcome of the Litecoin decoder: a decoded transaction, the explicit
`SkipTxDeserialize` signal, or a fatal decode failure (buffer underflow). -/
inductive LtcR where
  | ok (tx : ParsedTx) (txHash : Bytes) (vsize : Nat) (pos : Nat)
  | skip
  | fail
deriving DecidableEq

/-- Embedding of `DeserializerLitecoin._read_tx_parts`: like the SegWit
decoder, but `flag == 0` raises `SkipTxDeserialize`; the witness is read only
when `flag & 1` is set (otherwise the empty list); when `flag & 8` (MWEB) is
set, one extra byte is read and a nonzero value raises `SkipTxDeserialize`. -/
def DeserializerLitecoin.read_tx_parts (hashFn : Bytes → Bytes) (buf : Bytes)
    (start : Nat) : LtcR :=
  match Deserializer.read_byte buf (start + 4) with
  | none => .fail
  | some pk =>
  if pk.1 ≠ 0 then
    match Deserializer.read_le_int32 buf start with
    | none => .fail
    | some r1 =>
    match Deserializer.read_inputs buf r1.2 with
    | none => .fail
    | some r2 =>
    match Deserializer.read_outputs buf r2.2 with
    | none => .fail
    | some r3 =>
    match Deserializer.read_le_uint32 buf r3.2 with
    | none => .fail
    | some r4 =>
      .ok (ParsedTx.legacy ⟨r1.1, r2.1, r3.1, r4.1⟩)
        (hashFn ((buf.drop start).take (r4.2 - start))) buf.length r4.2
  else
    match Deserializer.read_le_int32 buf start with
    | none => .fail
    | some r1 =>
    match Deserializer.read_byte buf r1.2 with
    | none => .fail
    | some rm =>
    match Deserializer.read_byte buf rm.2 with
    | none => .fail
    | some rf =>
    if rf.1 = 0 then .skip
    else
    match Deserializer.read_inputs buf rf.2 with
    | none => .fail
    | some r2 =>
    match Deserializer.read_outputs buf r2.2 with
    | none => .fail
    | some r3 =>
    match (if rf.1 &&& 1 ≠ 0 then
            DeserializerSegWit.read_witness buf r2.1.length r3.2
           else some ([], r3.2)) with
    | none => .fail
    | some rw =>
    match (if rf.1 &&& 8 ≠ 0 then
            match Deserializer.read_byte buf rw.2 with
            | none => none
            | some rb => some (some rb.1, rb.2)
           else some (none, rw.2)) with
    | none => .fail
    | some rmw =>
    if rmw.1.getD 0 ≠ 0 then .skip
    else
    match Deserializer.read_le_uint32 buf rmw.2 with
    | none => .fail
    | some rl =>
      .ok (ParsedTx.segwit ⟨r1.1, rm.1, rf.1, r2.1, r3.1, rw.1, rl.1⟩)
        (hashFn ((buf.drop start).take (r1.2 - start) ++
          ((buf.drop rf.2).take (r3.2 - rf.2) ++
            (buf.drop rmw.2).take (rl.2 - rmw.2))))
        ((3 * (r3.2 - rf.2) + buf.length) / 4) rl.2

/-- Embedding of the non-ZIP225 tail of `DeserializerZcash.read_tx` (versions
below 5): base fields, then conditional raw cursor skips for expiry height,
Sapling value balance, shielded spends/outputs, joinsplits and binding
signature.  The skips (`self.cursor += n`) perform no bounds check. -/
def DeserializerZcash.read_tx_pre5 (buf : Bytes) (version : Nat) (pos : Nat) :
    Option (Tx × Nat) :=
  (Deserializer.read_inputs buf pos).bind fun r2 =>
  (Deserializer.read_outputs buf r2.2).bind fun r3 =>
  (Deserializer.read_le_uint32 buf r3.2).bind fun r4 =>
  let tx : Tx := ⟨(version : Int), r2.1, r3.1, r4.1⟩
  let p1 := if version = 3 ∨ version = 4 then r4.2 + 4 else r4.2
  (if version = 4 then
    (Deserializer.read_varint buf (p1 + 8)).bind fun rss =>
    (Deserializer.read_varint buf (rss.2 + rss.1 * 384)).bind fun rso =>
    some ((decide (0 < rss.1) || decide (0 < rso.1)), rso.2 + rso.1 * 948)
   else some (false, p1)).bind fun rsh =>
  (if 2 ≤ version then
    (Deserializer.read_varint buf rsh.2).bind fun rjs =>
    if 0 < rjs.1 then
      some (rjs.2 + rjs.1 * (1506 + (if version = 4 then 192 else 296)) + 32 + 64)
    else some rjs.2
   else some rsh.2).bind fun p2 =>
  some (tx, if version = 4 ∧ rsh.1 = true then p2 + 64 else p2)

/-- Embedding of the ZIP-225 (v5) tail of `DeserializerZcash.read_tx`:
consensus branch id, locktime and expiry up front, transparent fields, then
Sapling and Orchard bundle skips. -/
def DeserializerZcash.read_tx_v5 (buf : Bytes) (version : Nat) (pos : Nat) :
    Option (Tx × Nat) :=
  (Deserializer.read_le_uint32 buf pos).bind fun rcb =>
  (Deserializer.read_le_uint32 buf rcb.2).bind fun rlk =>
  (Deserializer.read_inputs buf (rlk.2 + 4)).bind fun r2 =>
  (Deserializer.read_outputs buf r2.2).bind fun r3 =>
  let tx : Tx := ⟨(version : Int), r2.1, r3.1, rlk.1⟩
  (Deserializer.read_varint buf r3.2).bind fun rsp =>
  (Deserializer.read_varint buf (rsp.2 + 96 * rsp.1)).bind fun rso =>
  let hasSapling := ¬(rsp.1 = 0 ∧ rso.1 = 0)
  let q1 := rso.2 + 756 * rso.1
  let q2 := if hasSapling then q1 + 8 else q1
  let q3 := if ¬(rsp.1 = 0) then q2 + 32 else q2
  let q4 := q3 + 192 * rsp.1 + 64 * rsp.1 + 192 * rso.1
  let q5 := if hasSapling then q4 + 64 else q4
  (Deserializer.read_varint buf q5).bind fun ract =>
  let q6 := ract.2 + 820 * ract.1
  if 0 < ract.1 then
    (Deserializer.read_varint buf (q6 + 1 + 8 + 32)).bind fun rpf =>
    some (tx, rpf.2 + rpf.1 + 64 * ract.1 + 64)
  else some (tx, q6)

/-- Embedding of `DeserializerZcash.read_tx`: reads the 4-byte header word,
splits off the overwintered bit and optional version group id, and dispatches
to the pre-v5 or ZIP-225 layout. -/
def DeserializerZcash.read_tx (buf : Bytes) (pos : Nat) : Option (Tx × Nat) :=
  (Deserializer.read_le_uint32 buf pos).bind fun rh =>
  if rh.1 >>> 31 = 1 then
    (Deserializer.read_le_uint32 buf rh.2).bind fun rg =>
    let version := rh.1 &&& 0x7fffffff
    if rg.1 = 0x26A7270A ∧ version = 5 then
      DeserializerZcash.read_tx_v5 buf version rg.2
    else
      DeserializerZcash.read_tx_pre5 buf version rg.2
  else
    DeserializerZcash.read_tx_pre5 buf rh.1 rh.2

/-- Decred transaction input record, mirroring `TxInputDcr`. -/
structure TxInputDcr where
  prev_hash : Bytes
  prev_idx : Nat
  tree : Nat
  sequence : Nat
deriving DecidableEq

/-- Decred transaction output record, mirroring `TxOutputDcr`. -/
structure TxOutputDcr where
  value : Int
  version : Nat
  pk_script : Bytes
deriving DecidableEq

/-- One Decred witness entry: value-in, block height, block index, script. -/
structure DcrWitness where
  value_in : Int
  block_height : Nat
  block_index : Nat
  script : Bytes
deriving DecidableEq

/-- Decred transaction record, mirroring `TxDcr`. -/
structure TxDcr where
  version : Int
  inputs : List TxInputDcr
  outputs : List TxOutputDcr
  locktime : Nat
  expiry : Nat
  witness : List DcrWitness
deriving DecidableEq

/-- Embedding of `DeserializerDecred.blake256`: one round of the external
BLAKE-256 primitive, abstracted as the `blake` parameter. -/
def DeserializerDecred.blake256 (blake : Bytes → Bytes) (data : Bytes) : Bytes :=
  blake data

/-- Embedding of `DeserializerDecred.blake256d`: two rounds of BLAKE-256. -/
def DeserializerDecred.blake256d (blake : Bytes → Bytes) (data : Bytes) : Bytes :=
  blake (blake data)

/-- Embedding of `DeserializerDecred._read_input`. -/
def DeserializerDecred.read_input (buf : Bytes) (pos : Nat) :
    Option (TxInputDcr × Nat) :=
  (Deserializer.read_nbytes buf pos 32).bind fun r1 =>
  (Deserializer.read_le_uint32 buf r1.2).bind fun r2 =>
  (Deserializer.read_byte buf r2.2).bind fun r3 =>
  (Deserializer.read_le_uint32 buf r3.2).map fun r4 =>
  (⟨r1.1, r2.1, r3.1, r4.1⟩, r4.2)

/-- Embedding of `DeserializerDecred._read_output` (value, script version,
pk_script). -/
def DeserializerDecred.read_output (buf : Bytes) (pos : Nat) :
    Option (TxOutputDcr × Nat) :=
  (Deserializer.read_le_int64 buf pos).bind fun r1 =>
  (Deserializer.read_le_uint16 buf r1.2).bind fun r2 =>
  (Deserializer.read_varbytes buf r2.2).map fun r3 =>
  (⟨r1.1, r2.1, r3.1⟩, r3.2)

/-- Embedding of `DeserializerDecred._read_witness_field`. -/
def DeserializerDecred.read_witness_field (buf : Bytes) (pos : Nat) :
    Option (DcrWitness × Nat) :=
  (Deserializer.read_le_int64 buf pos).bind fun r1 =>
  (Deserializer.read_le_uint32 buf r1.2).bind fun r2 =>
  (Deserializer.read_le_uint32 buf r2.2).bind fun r3 =>
  (Deserializer.read_varbytes buf r3.2).map fun r4 =>
  (⟨r1.1, r2.1, r3.1, r4.1⟩, r4.2)

/-- Embedding of `DeserializerDecred._read_witness`: a separate varint count
which must equal the input count (`assert fields == self._read_varint()`; a
failed assertion aborts the decode, modelled as `none`). -/
def DeserializerDecred.read_witness (buf : Bytes) (fields : Nat) (pos : Nat) :
    Option (List DcrWitness × Nat) :=
  (Deserializer.read_varint buf pos).bind fun r =>
    if fields = r.1 then read_list DeserializerDecred.read_witness_field fields buf r.2
    else none

/-- Embedding of `DeserializerDecred._read_tx_parts`: version, inputs,
outputs, locktime, expiry, then the witness array; when `produceHash` is set
the canonical id is `blake256` of the serialization-type header
`0x10000 | (version & 0xffff)` (4 bytes LE) followed by the raw bytes from
just after the version field through the end of the expiry field.  Since the
mask `0xffff` lies entirely below the bit `0x10000`, the header value is
written here as `0x10000 + (version mod 2^16)` (Python's `& 0xffff` on an
`int` is exactly the nonnegative remainder mod `2^16`).  The third component
of the value is `self.cursor - start`. -/
def DeserializerDecred.read_tx_parts (blake : Bytes → Bytes) (produceHash : Bool)
    (buf : Bytes) (start : Nat) : Option ((TxDcr × Option Bytes × Nat) × Nat) :=
  (Deserializer.read_le_int32 buf start).bind fun r1 =>
  (Deserializer.read_varint buf r1.2).bind fun rn =>
  (read_list DeserializerDecred.read_input rn.1 buf rn.2).bind fun r2 =>
  (Deserializer.read_varint buf r2.2).bind fun rm =>
  (read_list DeserializerDecred.read_output rm.1 buf rm.2).bind fun r3 =>
  (Deserializer.read_le_uint32 buf r3.2).bind fun r4 =>
  (Deserializer.read_le_uint32 buf r4.2).bind fun r5 =>
  (DeserializerDecred.read_witness buf r2.1.length r5.2).map fun rw =>
  let txHash :=
    if produceHash then
      some (DeserializerDecred.blake256 blake
        (leBytes 4 (0x10000 + (r1.1 % (0x10000 : Int)).toNat) ++
          (buf.drop (start + 4)).take (r5.2 - (start + 4))))
    else none
  ((⟨r1.1, r2.1, r3.1, r4.1, r5.1, rw.1⟩, txHash, rw.2 - start), rw.2)

/-- Embedding of `DeserializerEquihash.read_header`: skips the static header,
reads the varint solution length, computes the absolute end position, resets
the cursor to the start and then calls `_read_nbytes(header_end)` — note the
count is the absolute end position, not `header_end - start`. -/
def DeserializerEquihash.read_header (buf : Bytes) (start : Nat)
    (staticHeaderSize : Nat) : Option (Bytes × Nat) :=
  (Deserializer.read_varint buf (start + staticHeaderSize)).bind fun rs =>
  Deserializer.read_nbytes buf start (rs.2 + rs.1)

/-- Embedding of `DeserializerPrimecoin.read_header`: same speculative walk,
but the final read is `_read_nbytes(header_end - start)`. -/
def DeserializerPrimecoin.read_header (buf : Bytes) (start : Nat)
    (staticHeaderSize : Nat) : Option (Bytes × Nat) :=
  (Deserializer.read_varint buf (start + staticHeaderSize)).bind fun rs =>
  Deserializer.read_nbytes buf start (rs.2 + rs.1 - start)

/-- Modelled from the spec: `pack_le_uint32` from `electrumx.lib.util` (not
under `src/`); a 4-byte little-endian encoding of an unsigned 32-bit value. -/
def pack_le_uint32 (n : Nat) : Bytes :=
  leBytes 4 n

/-- Modelled from the spec: `pack_le_uint16` from `electrumx.lib.util`; a
2-byte little-endian encoding of an unsigned 16-bit value. -/
def pack_le_uint16 (n : Nat) : Bytes :=
  leBytes 2 n

/-- Modelled from the spec: `pack_le_int32` from `electrumx.lib.util`; the
4-byte little-endian two's-complement encoding of a signed 32-bit value. -/
def pack_le_int32 (v : Int) : Bytes :=
  leBytes 4 (v % (2 ^ 32 : Int)).toNat

/-- Modelled from the spec: `pack_le_int64` from `electrumx.lib.util`; the
8-byte little-endian two's-complement encoding of a signed 64-bit value. -/
def pack_le_int64 (v : Int) : Bytes :=
  leBytes 8 (v % (2 ^ 64 : Int)).toNat

/-- Modelled from the spec: `pack_varint` from `electrumx.lib.util`; the
Bitcoin compact-size encoding choosing the smallest of the four width classes
1/3/5/9 for the magnitude (spec section 3 invariants and section 8 varint
boundary law). -/
def pack_varint (n : Nat) : Bytes :=
  if n < 253 then [n]
  else if n < 65536 then 253 :: leBytes 2 n
  else if n < 4294967296 then 254 :: leBytes 4 n
  else 255 :: leBytes 8 n

/-- Modelled from the spec: `pack_varbytes` from `electrumx.lib.util`; a
varint length followed by the raw bytes. -/
def pack_varbytes (bs : Bytes) : Bytes :=
  pack_varint bs.length ++ bs

/-- Embedding of `TxInput.serialize`. -/
def TxInput.serialize (i : TxInput) : Bytes :=
  i.prev_hash ++ (pack_le_uint32 i.prev_idx ++
    (pack_varbytes i.script ++ pack_le_uint32 i.sequence))

/-- Embedding of `TxOutput.serialize`. -/
def TxOutput.serialize (o : TxOutput) : Bytes :=
  pack_le_int64 o.value ++ pack_varbytes o.pk_script

/-- Embedding of `Tx.serialize`: version, varint input count, inputs, varint
output count, outputs, locktime. -/
def Tx.serialize (t : Tx) : Bytes :=
  pack_le_int32 t.version ++
    (pack_varint t.inputs.length ++
      ((t.inputs.map TxInput.serialize).flatten ++
        (pack_varint t.outputs.length ++
          ((t.outputs.map TxOutput.serialize).flatten ++
            pack_le_uint32 t.locktime))))

/-- Modelled from the spec: serialization of one witness stack (spec section
4.2: "varint stack-item count, then varbytes per item"); `TxSegWit` has no
`serialize` method in the source. -/
def serializeWitnessStack (st : List Bytes) : Bytes :=
  pack_varint st.length ++ (st.map pack_varbytes).flatten

/-- Modelled from the spec: serialization of a SegWit transaction (spec
sections 3 and 4.2: version, marker, flag, inputs, outputs, one witness stack
per input, locktime); `TxSegWit` has no `serialize` method in the source. -/
def TxSegWit.serialize (s : TxSegWit) : Bytes :=
  pack_le_int32 s.version ++
    ([s.marker] ++
      ([s.flag] ++
        (pack_varint s.inputs.length ++
          ((s.inputs.map TxInput.serialize).flatten ++
            (pack_varint s.outputs.length ++
              ((s.outputs.map TxOutput.serialize).flatten ++
                ((s.witness.map serializeWitnessStack).flatten ++
                  pack_le_uint32 s.locktime)))))))

/-- A byte list all of whose entries are byte values. -/
def wfBytes (bs : Bytes) : Prop :=
  ∀ b ∈ bs, b < 256

/-- A validly constructed transaction input: 32-byte previous hash, 32-bit
previous index and sequence, and a script whose length a varint can carry. -/
def wfInput (i : TxInput) : Prop :=
  i.prev_hash.length = 32 ∧ wfBytes i.prev_hash ∧ i.prev_idx < 2 ^ 32 ∧
    i.script.length < 2 ^ 64 ∧ wfBytes i.script ∧ i.sequence < 2 ^ 32

/-- A validly constructed transaction output: signed 64-bit value and a
pk_script whose length a varint can carry. -/
def wfOutput (o : TxOutput) : Prop :=
  -(2 ^ 63) ≤ o.value ∧ o.value < 2 ^ 63 ∧
    o.pk_script.length < 2 ^ 64 ∧ wfBytes o.pk_script

/-- A validly constructed legacy transaction. -/
def wfTx (t : Tx) : Prop :=
  -(2 ^ 31) ≤ t.version ∧ t.version < 2 ^ 31 ∧
    t.inputs.length < 2 ^ 64 ∧ t.outputs.length < 2 ^ 64 ∧
    (∀ i ∈ t.inputs, wfInput i) ∧ (∀ o ∈ t.outputs, wfOutput o) ∧
    t.locktime < 2 ^ 32

/-- A validly constructed witness stack. -/
def wfStack (st : List Bytes) : Prop :=
  st.length < 2 ^ 64 ∧ ∀ item ∈ st, item.length < 2 ^ 64 ∧ wfBytes item

/-- A validly constructed SegWit transaction: legacy constraints, a zero
marker, a flag byte, and exactly one witness stack per input. -/
def wfSegWit (s : TxSegWit) : Prop :=
  -(2 ^ 31) ≤ s.version ∧ s.version < 2 ^ 31 ∧
    s.marker = 0 ∧ s.flag < 256 ∧
    s.inputs.length < 2 ^ 64 ∧ s.outputs.length < 2 ^ 64 ∧
    (∀ i ∈ s.inputs, wfInput i) ∧ (∀ o ∈ s.outputs, wfOutput o) ∧
    s.witness.length = s.inputs.length ∧ (∀ st ∈ s.witness, wfStack st) ∧
    s.locktime < 2 ^ 32



theorem length_leBytes (w n : Nat) : (leBytes w n).length = w := by
  induction w generalizing n with
  | zero => simp [leBytes]
  | succ k ih => simp [leBytes, ih]

theorem leNat_leBytes (w n : Nat) : leNat (leBytes w n) = n % 2 ^ (8 * w) := by
  induction w generalizing n with
  | zero => simp [leBytes, leNat, Nat.mod_one]
  | succ k ih =>
    have hpow : 2 ^ (8 * (k + 1)) = 256 * 2 ^ (8 * k) := by ring
    rw [leBytes, leNat, ih, hpow, Nat.mod_mul]

/-- The reader `f` consumes exactly the byte string `bs` producing the value
`x`, wherever `bs` occurs in the buffer. -/
def ParsesTo {α : Type} (f : Bytes → Nat → Option (α × Nat)) (bs : Bytes) (x : α) : Prop :=
  ∀ pre rest : Bytes, f (pre ++ (bs ++ rest)) pre.length = some (x, pre.length + bs.length)

theorem pt_read_byte (b : Nat) : ParsesTo Deserializer.read_byte [b] b := by
  intro pre rest
  simp [Deserializer.read_byte, List.drop_left]

theorem read_nbytes_append (pre mid rest : Bytes) :
    Deserializer.read_nbytes (pre ++ (mid ++ rest)) pre.length mid.length =
      some (mid, pre.length + mid.length) := by
  unfold Deserializer.read_nbytes
  rw [if_pos (by simp only [List.length_append]; omega)]
  rw [List.drop_left, List.take_left' rfl]

theorem pt_read_nbytes {n : Nat} {bs : Bytes} (h : bs.length = n) :
    ParsesTo (fun buf pos => Deserializer.read_nbytes buf pos n) bs bs := by
  intro pre rest
  have h2 := read_nbytes_append pre bs rest
  simpa [h] using h2

theorem pt_readLE (w : Nat) {n : Nat} (h : n < 2 ^ (8 * w)) :
    ParsesTo (readLE w) (leBytes w n) n := by
  intro pre rest
  have h1 := read_nbytes_append pre (leBytes w n) rest
  rw [length_leBytes] at h1
  simp [readLE, h1, leNat_leBytes, Nat.mod_eq_of_lt h, length_leBytes]

theorem pt_read_le_uint16 {n : Nat} (h : n < 2 ^ 16) :
    ParsesTo Deserializer.read_le_uint16 (pack_le_uint16 n) n := by
  have e : (2 : Nat) ^ (8 * 2) = 2 ^ 16 := by norm_num
  exact pt_readLE 2 (by rw [e]; exact h)

theorem pt_read_le_uint32 {n : Nat} (h : n < 2 ^ 32) :
    ParsesTo Deserializer.read_le_uint32 (pack_le_uint32 n) n := by
  have e : (2 : Nat) ^ (8 * 4) = 2 ^ 32 := by norm_num
  exact pt_readLE 4 (by rw [e]; exact h)

theorem pt_read_le_uint64 {n : Nat} (h : n < 2 ^ 64) :
    ParsesTo Deserializer.read_le_uint64 (leBytes 8 n) n := by
  have e : (2 : Nat) ^ (8 * 8) = 2 ^ 64 := by norm_num
  exact pt_readLE 8 (by rw [e]; exact h)

theorem toSigned_emod (w : Nat) (v : Int) (hw : 0 < w)
    (h1 : -(2 ^ (8 * w - 1)) ≤ v) (h2 : v < 2 ^ (8 * w - 1)) :
    toSigned w (v % ((2 : Int) ^ (8 * w))).toNat = v := by
  have hpow : (2 : Int) ^ (8 * w) = 2 ^ (8 * w - 1) * 2 := by
    rw [← pow_succ]
    congr 1
    omega
  have hbpos : (0 : Int) < 2 ^ (8 * w - 1) := by positivity
  have hpownat : ((2 ^ (8 * w - 1) : Nat) : Int) = (2 : Int) ^ (8 * w - 1) := by
    push_cast; ring
  have hpownat2 : ((2 ^ (8 * w) : Nat) : Int) = (2 : Int) ^ (8 * w) := by
    push_cast; ring
  by_cases hv : 0 ≤ v
  · have hemod : v % ((2 : Int) ^ (8 * w)) = v := Int.emod_eq_of_lt hv (by omega)
    unfold toSigned
    rw [hemod, if_pos (by omega)]
    omega
  · have hemod : v % ((2 : Int) ^ (8 * w)) = v + 2 ^ (8 * w) := by
      have h3 : (v + 2 ^ (8 * w)) % ((2 : Int) ^ (8 * w)) = v + 2 ^ (8 * w) :=
        Int.emod_eq_of_lt (by omega) (by omega)
      have h4 : (v + 2 ^ (8 * w)) % ((2 : Int) ^ (8 * w)) = v % ((2 : Int) ^ (8 * w)) := by
        have h5 := Int.add_mul_emod_self_left (a := v) (b := (2 : Int) ^ (8 * w)) (c := 1)
        simpa using h5
      omega
    unfold toSigned
    rw [hemod, if_neg (by omega)]
    omega

theorem pt_read_le_int32 {v : Int} (h1 : -(2 ^ 31) ≤ v) (h2 : v < 2 ^ 31) :
    ParsesTo Deserializer.read_le_int32 (pack_le_int32 v) v := by
  intro pre rest
  have e : (2 : Nat) ^ (8 * 4) = 2 ^ 32 := by norm_num
  have hlt : (v % (2 ^ 32 : Int)).toNat < 2 ^ (8 * 4) := by
    rw [e]
    have hpos : (0 : Int) < 2 ^ 32 := by positivity
    have hub := Int.emod_lt_of_pos v hpos
    have hlb := Int.emod_nonneg v (by positivity : (2 : Int) ^ 32 ≠ 0)
    norm_num at hub hlb ⊢
    omega
  have h := pt_readLE 4 hlt pre rest
  have hts : toSigned 4 (v % (2 ^ 32 : Int)).toNat = v := by
    have h8 : (8 : Nat) * 4 - 1 = 31 := by norm_num
    have eI : ((2 : Int) ^ (8 * 4)) = 2 ^ 32 := by norm_num
    have := toSigned_emod 4 v (by norm_num) (by rw [h8]; exact h1) (by rw [h8]; exact h2)
    rwa [eI] at this
  simp only [pack_le_int32, Deserializer.read_le_int32]
  rw [h]
  simp only [Option.map_some']
  rw [hts]

theorem pt_read_le_int64 {v : Int} (h1 : -(2 ^ 63) ≤ v) (h2 : v < 2 ^ 63) :
    ParsesTo Deserializer.read_le_int64 (pack_le_int64 v) v := by
  intro pre rest
  have e : (2 : Nat) ^ (8 * 8) = 2 ^ 64 := by norm_num
  have hlt : (v % (2 ^ 64 : Int)).toNat < 2 ^ (8 * 8) := by
    rw [e]
    have hpos : (0 : Int) < 2 ^ 64 := by positivity
    have hub := Int.emod_lt_of_pos v hpos
    have hlb := Int.emod_nonneg v (by positivity : (2 : Int) ^ 64 ≠ 0)
    norm_num at hub hlb ⊢
    omega
  have h := pt_readLE 8 hlt pre rest
  have hts : toSigned 8 (v % (2 ^ 64 : Int)).toNat = v := by
    have h8 : (8 : Nat) * 8 - 1 = 63 := by norm_num
    have eI : ((2 : Int) ^ (8 * 8)) = 2 ^ 64 := by norm_num
    have := toSigned_emod 8 v (by norm_num) (by rw [h8]; exact h1) (by rw [h8]; exact h2)
    rwa [eI] at this
  simp only [pack_le_int64, Deserializer.read_le_int64]
  rw [h]
  simp only [Option.map_some']
  rw [hts]

theorem pt_bind {α β : Type} {f : Bytes → Nat → Option (α × Nat)}
    {k : α → Bytes → Nat → Option (β × Nat)} {ba bb : Bytes} {x : α} {y : β}
    (hf : ParsesTo f ba x) (hk : ParsesTo (k x) bb y) :
    ParsesTo (fun buf pos => (f buf pos).bind fun r => k r.1 buf r.2) (ba ++ bb) y := by
  intro pre rest
  have h1 := hf pre (bb ++ rest)
  have h2 := hk (pre ++ ba) rest
  simp only [List.append_assoc] at h1 h2 ⊢
  simp only [List.length_append] at h2 ⊢
  rw [h1]
  simpa [Nat.add_assoc] using h2


theorem pt_read_varint {n : Nat} (h : n < 2 ^ 64) :
    ParsesTo Deserializer.read_varint (pack_varint n) n := by
  intro pre rest
  by_cases h1 : n < 253
  · have hb := pt_read_byte n pre rest
    simp only [List.length_singleton] at hb
    simp only [pack_varint, if_pos h1]
    simp only [Deserializer.read_varint, List.singleton_append]
    rw [show pre ++ ([n] ++ rest) = pre ++ n :: rest from by simp] at hb
    rw [hb]
    simp [h1]
  · by_cases h2 : n < 65536
    · have hb := pt_read_byte 253 pre (leBytes 2 n ++ rest)
      have h16 := pt_read_le_uint16 (show n < 2 ^ 16 from by norm_num; omega) (pre ++ [253]) rest
      simp only [pack_le_uint16, List.length_singleton, List.append_assoc,
        List.singleton_append, List.length_append, List.length_cons,
        List.length_nil, length_leBytes] at hb h16
      simp only [pack_varint, if_neg h1, if_pos h2]
      simp only [Deserializer.read_varint, List.cons_append, List.length_cons, length_leBytes]
      rw [hb]
      simp only [Option.some_bind]
      rw [if_neg (by omega)]
      simp only [if_true]
      rw [h16]
    · by_cases h3 : n < 4294967296
      · have hb := pt_read_byte 254 pre (leBytes 4 n ++ rest)
        have h32 := pt_read_le_uint32 (show n < 2 ^ 32 from by norm_num; omega) (pre ++ [254]) rest
        simp only [pack_le_uint32, List.length_singleton, List.append_assoc,
          List.singleton_append, List.length_append, List.length_cons,
          List.length_nil, length_leBytes] at hb h32
        simp only [pack_varint, if_neg h1, if_neg h2, if_pos h3]
        simp only [Deserializer.read_varint, List.cons_append, List.length_cons, length_leBytes]
        rw [hb]
        simp only [Option.some_bind]
        rw [if_neg (by omega), if_neg (by omega)]
        simp only [if_true]
        rw [h32]
      · have hb := pt_read_byte 255 pre (leBytes 8 n ++ rest)
        have h64 := pt_read_le_uint64 (show n < 2 ^ 64 from h) (pre ++ [255]) rest
        simp only [List.length_singleton, List.append_assoc,
          List.singleton_append, List.length_append, List.length_cons,
          List.length_nil, length_leBytes] at hb h64
        simp only [pack_varint, if_neg h1, if_neg h2, if_neg h3]
        simp only [Deserializer.read_varint, List.cons_append, List.length_cons, length_leBytes]
        rw [hb]
        simp only [Option.some_bind]
        rw [if_neg (by omega), if_neg (by omega), if_neg (by omega)]
        rw [h64]

theorem pt_map {α β : Type} {f : Bytes → Nat → Option (α × Nat)} {ba : Bytes} {x : α}
    (hf : ParsesTo f ba x) (g : α → β) :
    ParsesTo (fun buf pos => (f buf pos).map fun r => (g r.1, r.2)) ba (g x) := by
  intro pre rest
  simp [hf pre rest]

theorem pt_read_varbytes {bs : Bytes} (h : bs.length < 2 ^ 64) :
    ParsesTo Deserializer.read_varbytes (pack_varbytes bs) bs :=
  pt_bind (k := fun m buf pos => Deserializer.read_nbytes buf pos m)
    (pt_read_varint h) (pt_read_nbytes rfl)

theorem pt_read_list {α : Type} {f : Bytes → Nat → Option (α × Nat)}
    {g : α → Bytes} {items : List α}
    (h : ∀ a ∈ items, ParsesTo f (g a) a) :
    ParsesTo (fun buf pos => read_list f items.length buf pos)
      ((items.map g).flatten) items := by
  induction items with
  | nil =>
    intro pre rest
    simp [read_list]
  | cons a as ih =>
    have ha : ParsesTo f (g a) a := h a (by simp)
    have has := ih (fun b hb => h b (by simp [hb]))
    intro pre rest
    have h1 := ha pre ((as.map g).flatten ++ rest)
    have h2 := has (pre ++ g a) rest
    simp only [List.append_assoc, List.length_append] at h1 h2 ⊢
    simp only [List.map_cons, List.flatten_cons, List.length_cons,
      List.append_assoc, List.length_append] at h2 ⊢
    simp only [read_list]
    rw [h1]
    simp only [Option.some_bind]
    rw [h2]
    simp only [Option.map_some', Option.some.injEq, Prod.mk.injEq]
    exact ⟨trivial, by omega⟩

theorem pt_read_input {i : TxInput} (h : wfInput i) :
    ParsesTo Deserializer.read_input i.serialize i := by
  obtain ⟨h32, hb32, hidx, hslen, hbs, hseq⟩ := h
  exact pt_bind
    (k := fun a buf pos =>
      (Deserializer.read_le_uint32 buf pos).bind fun r2 =>
      (Deserializer.read_varbytes buf r2.2).bind fun r3 =>
      (Deserializer.read_le_uint32 buf r3.2).map fun r4 =>
      ((⟨a, r2.1, r3.1, r4.1⟩ : TxInput), r4.2))
    (pt_read_nbytes h32)
    (pt_bind
      (k := fun b buf pos =>
        (Deserializer.read_varbytes buf pos).bind fun r3 =>
        (Deserializer.read_le_uint32 buf r3.2).map fun r4 =>
        ((⟨i.prev_hash, b, r3.1, r4.1⟩ : TxInput), r4.2))
      (pt_read_le_uint32 hidx)
      (pt_bind
        (k := fun c buf pos =>
          (Deserializer.read_le_uint32 buf pos).map fun r4 =>
          ((⟨i.prev_hash, i.prev_idx, c, r4.1⟩ : TxInput), r4.2))
        (pt_read_varbytes hslen)
        (pt_map (pt_read_le_uint32 hseq)
          (fun s => (⟨i.prev_hash, i.prev_idx, i.script, s⟩ : TxInput)))))

theorem pt_read_output {o : TxOutput} (h : wfOutput o) :
    ParsesTo Deserializer.read_output o.serialize o := by
  obtain ⟨hv1, hv2, hlen, hbs⟩ := h
  exact pt_bind
    (k := fun a buf pos =>
      (Deserializer.read_varbytes buf pos).map fun r2 =>
      ((⟨a, r2.1⟩ : TxOutput), r2.2))
    (pt_read_le_int64 hv1 hv2)
    (pt_map (pt_read_varbytes hlen) (fun s => (⟨o.value, s⟩ : TxOutput)))

theorem pt_read_inputs {items : List TxInput} (hn : items.length < 2 ^ 64)
    (h : ∀ i ∈ items, wfInput i) :
    ParsesTo Deserializer.read_inputs
      (pack_varint items.length ++ (items.map TxInput.serialize).flatten) items :=
  pt_bind (k := fun m buf pos => read_list Deserializer.read_input m buf pos)
    (pt_read_varint hn) (pt_read_list (fun i hi => pt_read_input (h i hi)))

theorem pt_read_outputs {items : List TxOutput} (hn : items.length < 2 ^ 64)
    (h : ∀ o ∈ items, wfOutput o) :
    ParsesTo Deserializer.read_outputs
      (pack_varint items.length ++ (items.map TxOutput.serialize).flatten) items :=
  pt_bind (k := fun m buf pos => read_list Deserializer.read_output m buf pos)
    (pt_read_varint hn) (pt_read_list (fun o ho => pt_read_output (h o ho)))

theorem pt_read_tx {t : Tx} (h : wfTx t) :
    ParsesTo Deserializer.read_tx t.serialize t := by
  obtain ⟨hv1, hv2, hni, hno, hins, houts, hlock⟩ := h
  have hcomp := pt_bind
    (k := fun a buf pos =>
      (Deserializer.read_inputs buf pos).bind fun r2 =>
      (Deserializer.read_outputs buf r2.2).bind fun r3 =>
      (Deserializer.read_le_uint32 buf r3.2).map fun r4 =>
      ((⟨a, r2.1, r3.1, r4.1⟩ : Tx), r4.2))
    (pt_read_le_int32 hv1 hv2)
    (pt_bind
      (k := fun b buf pos =>
        (Deserializer.read_outputs buf pos).bind fun r3 =>
        (Deserializer.read_le_uint32 buf r3.2).map fun r4 =>
        ((⟨t.version, b, r3.1, r4.1⟩ : Tx), r4.2))
      (pt_read_inputs hni hins)
      (pt_bind
        (k := fun c buf pos =>
          (Deserializer.read_le_uint32 buf pos).map fun r4 =>
          ((⟨t.version, t.inputs, c, r4.1⟩ : Tx), r4.2))
        (pt_read_outputs hno houts)
        (pt_map (pt_read_le_uint32 hlock)
          (fun s => (⟨t.version, t.inputs, t.outputs, s⟩ : Tx)))))
  have e : pack_le_int32 t.version ++
      ((pack_varint t.inputs.length ++ (t.inputs.map TxInput.serialize).flatten) ++
        ((pack_varint t.outputs.length ++ (t.outputs.map TxOutput.serialize).flatten) ++
          pack_le_uint32 t.locktime)) = t.serialize := by
    simp [Tx.serialize, List.append_assoc]
  rwa [e] at hcomp


theorem read_byte_some {buf : Bytes} {pos : Nat} {r : Nat × Nat}
    (h : Deserializer.read_byte buf pos = some r) :
    pos < buf.length ∧ r.2 = pos + 1 := by
  unfold Deserializer.read_byte at h
  cases hd : (buf.drop pos).head? with
  | none => rw [hd] at h; exact absurd h (by simp)
  | some b =>
    rw [hd] at h
    have hne : buf.drop pos ≠ [] := by
      intro he
      rw [he] at hd
      simp at hd
    have hlt : pos < buf.length := by
      by_contra hge
      push_neg at hge
      rw [List.drop_eq_nil_of_le hge] at hne
      exact hne rfl
    refine ⟨hlt, ?_⟩
    have := Option.some.inj h
    rw [← this]

theorem read_nbytes_some {buf : Bytes} {pos n : Nat} {r : Bytes × Nat}
    (h : Deserializer.read_nbytes buf pos n = some r) :
    pos + n ≤ buf.length ∧ r.2 = pos + n := by
  unfold Deserializer.read_nbytes at h
  split at h
  · exact ⟨by assumption, by rw [← Option.some.inj h]⟩
  · exact absurd h (by simp)

theorem read_nbytes_none {buf : Bytes} {pos n : Nat}
    (h : buf.length < pos + n) : Deserializer.read_nbytes buf pos n = none := by
  unfold Deserializer.read_nbytes
  rw [if_neg (by omega)]

theorem readLE_some {w : Nat} {buf : Bytes} {pos : Nat} {r : Nat × Nat}
    (h : readLE w buf pos = some r) :
    pos + w ≤ buf.length ∧ r.2 = pos + w := by
  unfold readLE at h
  cases hn : Deserializer.read_nbytes buf pos w with
  | none => rw [hn] at h; exact absurd h (by simp)
  | some s =>
    rw [hn] at h
    have hs := read_nbytes_some hn
    refine ⟨hs.1, ?_⟩
    rw [← Option.some.inj h]
    exact hs.2

theorem read_varint_some {buf : Bytes} {pos : Nat} {r : Nat × Nat}
    (h : Deserializer.read_varint buf pos = some r) :
    r.2 ≤ buf.length ∧ pos < r.2 := by
  unfold Deserializer.read_varint at h
  cases hb : Deserializer.read_byte buf pos with
  | none => rw [hb] at h; exact absurd h (by simp)
  | some b =>
    rw [hb] at h
    have hbs := read_byte_some hb
    simp only [Option.some_bind] at h
    split at h
    · have := Option.some.inj h
      subst this
      omega
    · split at h
      · have := readLE_some h
        omega
      · split at h
        · have := readLE_some h
          omega
        · have := readLE_some h
          omega

theorem read_varbytes_some {buf : Bytes} {pos : Nat} {r : Bytes × Nat}
    (h : Deserializer.read_varbytes buf pos = some r) :
    r.2 ≤ buf.length ∧ pos < r.2 := by
  unfold Deserializer.read_varbytes at h
  cases hv : Deserializer.read_varint buf pos with
  | none => rw [hv] at h; exact absurd h (by simp)
  | some s =>
    rw [hv] at h
    have h1 := read_varint_some hv
    have h2 := read_nbytes_some h
    omega

theorem read_list_some {α : Type} {f : Bytes → Nat → Option (α × Nat)}
    {k : Nat} {buf : Bytes} {pos : Nat} {r : List α × Nat}
    (hf : ∀ p s, f buf p = some s → s.2 ≤ buf.length)
    (hpos : pos ≤ buf.length)
    (h : read_list f k buf pos = some r) :
    r.1.length = k ∧ r.2 ≤ buf.length := by
  induction k generalizing pos r with
  | zero =>
    unfold read_list at h
    have := Option.some.inj h
    subst this
    exact ⟨rfl, hpos⟩
  | succ m ih =>
    unfold read_list at h
    cases h1 : f buf pos with
    | none => rw [h1] at h; exact absurd h (by simp)
    | some s =>
      rw [h1] at h
      simp only [Option.some_bind] at h
      cases h2 : read_list f m buf s.2 with
      | none => rw [h2] at h; exact absurd h (by simp)
      | some rs =>
        rw [h2] at h
        have hrec := ih (hf pos s h1) h2
        simp only [Option.map_some'] at h
        have := Option.some.inj h
        subst this
        simp only [List.length_cons]
        exact ⟨by rw [hrec.1], hrec.2⟩

theorem read_input_some {buf : Bytes} {pos : Nat} {r : TxInput × Nat}
    (h : Deserializer.read_input buf pos = some r) : r.2 ≤ buf.length := by
  unfold Deserializer.read_input at h
  cases h1 : Deserializer.read_nbytes buf pos 32 with
  | none => rw [h1] at h; exact absurd h (by simp)
  | some r1 =>
    rw [h1] at h
    simp only [Option.some_bind] at h
    cases h2 : Deserializer.read_le_uint32 buf r1.2 with
    | none => rw [h2] at h; exact absurd h (by simp)
    | some r2 =>
      rw [h2] at h
      simp only [Option.some_bind] at h
      cases h3 : Deserializer.read_varbytes buf r2.2 with
      | none => rw [h3] at h; exact absurd h (by simp)
      | some r3 =>
        rw [h3] at h
        simp only [Option.some_bind] at h
        cases h4 : Deserializer.read_le_uint32 buf r3.2 with
        | none => rw [h4] at h; exact absurd h (by simp)
        | some r4 =>
          rw [h4] at h
          simp only [Option.map_some'] at h
          have := Option.some.inj h
          subst this
          have := readLE_some h4
          omega

theorem read_output_some {buf : Bytes} {pos : Nat} {r : TxOutput × Nat}
    (h : Deserializer.read_output buf pos = some r) : r.2 ≤ buf.length := by
  unfold Deserializer.read_output at h
  rw [Option.bind_eq_some] at h
  obtain ⟨r1, h1, h⟩ := h
  rw [Option.map_eq_some'] at h
  obtain ⟨r2, h2, h⟩ := h
  have := read_varbytes_some h2
  rw [← h]
  omega

theorem read_inputs_some {buf : Bytes} {pos : Nat} {r : List TxInput × Nat}
    (h : Deserializer.read_inputs buf pos = some r) :
    r.2 ≤ buf.length ∧ r.1.length ≤ r.1.length := by
  unfold Deserializer.read_inputs at h
  rw [Option.bind_eq_some] at h
  obtain ⟨rn, hn, h⟩ := h
  have hb := read_varint_some hn
  have := read_list_some (fun p s hs => read_input_some hs) (by omega) h
  exact ⟨this.2, le_refl _⟩

theorem read_outputs_some {buf : Bytes} {pos : Nat} {r : List TxOutput × Nat}
    (h : Deserializer.read_outputs buf pos = some r) : r.2 ≤ buf.length := by
  unfold Deserializer.read_outputs at h
  rw [Option.bind_eq_some] at h
  obtain ⟨rn, hn, h⟩ := h
  have hb := read_varint_some hn
  exact (read_list_some (fun p s hs => read_output_some hs) (by omega) h).2

theorem read_tx_some {buf : Bytes} {pos : Nat} {r : Tx × Nat}
    (h : Deserializer.read_tx buf pos = some r) : r.2 ≤ buf.length := by
  unfold Deserializer.read_tx at h
  rw [Option.bind_eq_some] at h
  obtain ⟨r1, h1, h⟩ := h
  rw [Option.bind_eq_some] at h
  obtain ⟨r2, h2, h⟩ := h
  rw [Option.bind_eq_some] at h
  obtain ⟨r3, h3, h⟩ := h
  rw [Option.map_eq_some'] at h
  obtain ⟨r4, h4, h⟩ := h
  have := readLE_some h4
  rw [← h]
  omega

theorem read_list_length {α : Type} {f : Bytes → Nat → Option (α × Nat)}
    {k : Nat} {buf : Bytes} {pos : Nat} {r : List α × Nat}
    (h : read_list f k buf pos = some r) : r.1.length = k := by
  induction k generalizing pos r with
  | zero =>
    unfold read_list at h
    rw [← Option.some.inj h]
    rfl
  | succ m ih =>
    unfold read_list at h
    rw [Option.bind_eq_some] at h
    obtain ⟨s, hs, h⟩ := h
    rw [Option.map_eq_some'] at h
    obtain ⟨rs, hrs, h⟩ := h
    rw [← h]
    simp [ih hrs]

/-- C9: for every buffer position with enough remaining bytes, `_read_varint`
reads one byte `n` and returns `n` itself when `n < 253`, the next 2 bytes
little-endian when `n == 253`, the next 4 bytes when `n == 254`, and the next
8 bytes when `n == 255`, advancing the cursor by exactly 1, 3, 5 or 9 bytes
respectively, with no minimality requirement on the encoding. -/
theorem c9_varint (buf : Bytes) (pos b : Nat)
    (hb : Deserializer.read_byte buf pos = some (b, pos + 1)) :
    (b < 253 → Deserializer.read_varint buf pos = some (b, pos + 1)) ∧
    (b = 253 → pos + 3 ≤ buf.length →
      Deserializer.read_varint buf pos =
        some (leNat ((buf.drop (pos + 1)).take 2), pos + 3)) ∧
    (b = 254 → pos + 5 ≤ buf.length →
      Deserializer.read_varint buf pos =
        some (leNat ((buf.drop (pos + 1)).take 4), pos + 5)) ∧
    (b = 255 → pos + 9 ≤ buf.length →
      Deserializer.read_varint buf pos =
        some (leNat ((buf.drop (pos + 1)).take 8), pos + 9)) := by
  refine ⟨?_, ?_, ?_, ?_⟩
  · intro h1
    unfold Deserializer.read_varint
    rw [hb]
    simp only [Option.some_bind]
    rw [if_pos h1]
  · intro h1 h2
    subst h1
    unfold Deserializer.read_varint
    rw [hb]
    simp only [Option.some_bind]
    rw [if_neg (by omega)]
    simp only [if_true]
    unfold Deserializer.read_le_uint16 readLE Deserializer.read_nbytes
    rw [if_pos (by omega)]
    rfl
  · intro h1 h2
    subst h1
    unfold Deserializer.read_varint
    rw [hb]
    simp only [Option.some_bind]
    rw [if_neg (by omega), if_neg (by omega)]
    simp only [if_true]
    unfold Deserializer.read_le_uint32 readLE Deserializer.read_nbytes
    rw [if_pos (by omega)]
    rfl
  · intro h1 h2
    subst h1
    unfold Deserializer.read_varint
    rw [hb]
    simp only [Option.some_bind]
    rw [if_neg (by omega), if_neg (by omega), if_neg (by omega)]
    unfold Deserializer.read_le_uint64 readLE Deserializer.read_nbytes
    rw [if_pos (by omega)]
    rfl

/-- Witness for `c9_varint`: each width class at a concrete buffer, including
a non-minimal encoding (`[253, 5, 0]` decodes to 5). -/
theorem c9_varint_witness :
    Deserializer.read_varint [7] 0 = some (7, 1) ∧
    Deserializer.read_varint [253, 5, 0] 0 = some (5, 3) ∧
    Deserializer.read_varint [254, 1, 0, 0, 1] 0 = some (16777217, 5) ∧
    Deserializer.read_varint [255, 1, 0, 0, 0, 0, 0, 0, 1] 0 =
      some (72057594037927937, 9) := by
  refine ⟨?_, ?_, ?_, ?_⟩
  · exact (c9_varint [7] 0 7 (by decide)).1 (by decide)
  · exact ((c9_varint [253, 5, 0] 0 253 (by decide)).2.1 rfl (by decide)).trans
      (by decide)
  · exact ((c9_varint [254, 1, 0, 0, 1] 0 254 (by decide)).2.2.1 rfl
      (by decide)).trans (by decide)
  · exact ((c9_varint [255, 1, 0, 0, 0, 0, 0, 0, 1] 0 255 (by decide)).2.2.2 rfl
      (by decide)).trans (by decide)

/-- C3 (amended): the core primitive reads fail explicitly (with the length
check performed before any access) whenever the requested span exceeds the
remaining buffer, and on success never leave the cursor past the buffer end;
this also holds for the whole base legacy decode.  However (see the
counterexample) the fork-specialized skip steps (`self.cursor += n` in the
Zcash shielded-pool path) advance the cursor with no bounds check, so a
specialized decode can succeed with the cursor beyond the buffer end. -/
theorem c3_bounds_amended :
    (∀ (buf : Bytes) (pos n : Nat), buf.length < pos + n →
      Deserializer.read_nbytes buf pos n = none) ∧
    (∀ (buf : Bytes) (pos : Nat) (r : Nat × Nat),
      Deserializer.read_byte buf pos = some r → r.2 ≤ buf.length) ∧
    (∀ (buf : Bytes) (pos n : Nat) (r : Bytes × Nat),
      Deserializer.read_nbytes buf pos n = some r → r.2 ≤ buf.length) ∧
    (∀ (w : Nat) (buf : Bytes) (pos : Nat) (r : Nat × Nat),
      readLE w buf pos = some r → r.2 ≤ buf.length) ∧
    (∀ (buf : Bytes) (pos : Nat) (r : Nat × Nat),
      Deserializer.read_varint buf pos = some r → r.2 ≤ buf.length) ∧
    (∀ (buf : Bytes) (pos : Nat) (r : Bytes × Nat),
      Deserializer.read_varbytes buf pos = some r → r.2 ≤ buf.length) ∧
    (∀ (buf : Bytes) (pos : Nat) (r : Tx × Nat),
      Deserializer.read_tx buf pos = some r → r.2 ≤ buf.length) := by
  refine ⟨?_, ?_, ?_, ?_, ?_, ?_, ?_⟩
  · intro buf pos n h
    exact read_nbytes_none h
  · intro buf pos r h
    have := read_byte_some h
    omega
  · intro buf pos n r h
    have := read_nbytes_some h
    omega
  · intro w buf pos r h
    have := readLE_some h
    omega
  · intro buf pos r h
    exact (read_varint_some h).1
  · intro buf pos r h
    exact (read_varbytes_some h).1
  · intro buf pos r h
    exact read_tx_some h

/-- Witness for `c3_bounds_amended` at concrete buffers: an out-of-range
`_read_nbytes` fails, and successful primitive reads and a successful base
decode keep the cursor within the 10-byte buffer. -/
theorem c3_bounds_amended_witness :
    Deserializer.read_nbytes [1, 2] 1 4 = none ∧
    (2 : Nat) ≤ ([1, 2, 3] : Bytes).length ∧
    (10 : Nat) ≤ ([1, 0, 0, 0, 0, 0, 0, 0, 0, 0] : Bytes).length := by
  refine ⟨?_, ?_, ?_⟩
  · exact c3_bounds_amended.1 [1, 2] 1 4 (by decide)
  · exact c3_bounds_amended.2.2.2.2.1 [1, 2, 3] 1 (2, 2) (by decide)
  · exact c3_bounds_amended.2.2.2.2.2.2 [1, 0, 0, 0, 0, 0, 0, 0, 0, 0] 0
      (⟨1, [], [], 0⟩, 10) (by decide)

/-- C3 counterexample: the claim says no decode step ever advances the cursor
past the buffer end without first checking the remaining length, for every
deserializer including the Zcash shielded-pool skips; but
`DeserializerZcash.read_tx` on this 11-byte version-2 buffer (whose trailing
byte is a joinsplit count of 1) succeeds and leaves the cursor at 1909, far
past the buffer end, because the joinsplit skip `self.cursor += ...` performs
no bounds check. -/
theorem c3_bounds_counterexample :
    DeserializerZcash.read_tx [2, 0, 0, 0, 0, 0, 0, 0, 0, 0, 1] 0 =
      some (⟨2, [], [], 0⟩, 1909) ∧
    ¬(1909 ≤ ([2, 0, 0, 0, 0, 0, 0, 0, 0, 0, 1] : Bytes).length) := by
  exact ⟨by decide, by decide⟩

/-- C8 (amended): whenever the varint trailer length is readable, the
Primecoin `read_header` returns, for every starting cursor, exactly the span
beginning at the original start of length `static_header_size` plus the
varint width plus the trailer length, with the cursor reset to the start
before the final read; the Equihash `read_header` does the same when the
starting cursor is 0 (its final `_read_nbytes(header_end)` uses the absolute
end position as a count, which over-reads by `start` bytes for nonzero
starts, see the counterexample). -/
theorem c8_header_span_amended (buf : Bytes) (start staticSize sol p : Nat)
    (hv : Deserializer.read_varint buf (start + staticSize) = some (sol, p)) :
    (∀ r, DeserializerPrimecoin.read_header buf start staticSize = some r →
      r.1 = (buf.drop start).take (staticSize + (p - (start + staticSize)) + sol) ∧
      r.1.length = staticSize + (p - (start + staticSize)) + sol ∧
      r.2 = start + (staticSize + (p - (start + staticSize)) + sol)) ∧
    (start = 0 →
      ∀ r, DeserializerEquihash.read_header buf start staticSize = some r →
        r.1 = (buf.drop start).take (staticSize + (p - (start + staticSize)) + sol) ∧
        r.1.length = staticSize + (p - (start + staticSize)) + sol ∧
        r.2 = start + (staticSize + (p - (start + staticSize)) + sol)) := by
  have hvs := read_varint_some hv
  have harith : p + sol - start = staticSize + (p - (start + staticSize)) + sol := by
    omega
  constructor
  · intro r h
    unfold DeserializerPrimecoin.read_header at h
    rw [hv] at h
    simp only [Option.some_bind] at h
    have hs := read_nbytes_some h
    unfold Deserializer.read_nbytes at h
    rw [if_pos (by omega)] at h
    have hr := Option.some.inj h
    rw [← hr]
    refine ⟨by rw [harith], ?_, by omega⟩
    simp only [List.length_take, List.length_drop]
    omega
  · intro h0 r h
    subst h0
    unfold DeserializerEquihash.read_header at h
    rw [hv] at h
    simp only [Option.some_bind] at h
    have hs := read_nbytes_some h
    unfold Deserializer.read_nbytes at h
    rw [if_pos (by omega)] at h
    have hr := Option.some.inj h
    rw [← hr]
    have harith0 : p + sol = staticSize + (p - (0 + staticSize)) + sol := by omega
    refine ⟨by rw [← harith0], ?_, by omega⟩
    simp only [List.length_take, List.length_drop]
    omega

/-- Witness for `c8_header_span_amended`: a 2-byte buffer with a 1-byte
static header and an empty trailer; both extractors return the 2-byte span
`[9, 0]` ending at cursor 2. -/
theorem c8_header_span_amended_witness :
    DeserializerPrimecoin.read_header [9, 0] 0 1 = some ([9, 0], 2) ∧
    DeserializerEquihash.read_header [9, 0] 0 1 = some ([9, 0], 2) ∧
    ([9, 0] : Bytes).length = 1 + (2 - (0 + 1)) + 0 := by
  have h := c8_header_span_amended [9, 0] 0 1 0 2 (by decide)
  have hp : DeserializerPrimecoin.read_header [9, 0] 0 1 = some ([9, 0], 2) := by
    decide
  have he : DeserializerEquihash.read_header [9, 0] 0 1 = some ([9, 0], 2) := by
    decide
  exact ⟨hp, he, (h.1 ([9, 0], 2) hp).2.1⟩

/-- C8 counterexample: the claim quantifies over every starting cursor, but
`DeserializerEquihash.read_header` at start 1 with a 1-byte static header and
an empty trailer returns a 3-byte span (`_read_nbytes(header_end)` with the
absolute end position 3 as the count), while the claimed length is
`static + varint-width + trailer = 1 + 1 + 0 = 2`. -/
theorem c8_header_span_counterexample :
    DeserializerEquihash.read_header [10, 11, 0, 12] 1 1 = some ([11, 0, 12], 4) ∧
    Deserializer.read_varint [10, 11, 0, 12] 2 = some (0, 3) ∧
    ([11, 0, 12] : Bytes).length ≠ 1 + (3 - 2) + 0 := by
  exact ⟨by decide, by decide, by decide⟩

/-- C10: for every buffer whose byte at offset `start + 4` is nonzero (the
legacy branch), `DeserializerSegWit.read_tx_and_hash` returns exactly the
same transaction value (wrapped in the legacy constructor), the same hash of
the same byte span, and the same final cursor as the base
`Deserializer.read_tx_and_hash`. -/
theorem c10_segwit_legacy_refines (hashFn : Bytes → Bytes) (buf : Bytes)
    (start b : Nat) (hb : Deserializer.read_byte buf (start + 4) = some (b, start + 5))
    (hnz : b ≠ 0) :
    DeserializerSegWit.read_tx_and_hash hashFn buf start =
      (Deserializer.read_tx_and_hash hashFn buf start).map
        (fun r => ((ParsedTx.legacy r.1.1, r.1.2), r.2)) := by
  unfold DeserializerSegWit.read_tx_and_hash DeserializerSegWit.read_tx_parts
  unfold Deserializer.read_tx_and_hash Deserializer.read_tx
  rw [hb]
  simp only [Option.some_bind]
  rw [if_pos hnz]
  cases h1 : Deserializer.read_le_int32 buf start with
  | none => simp
  | some r1 =>
    simp only [Option.some_bind]
    cases h2 : Deserializer.read_inputs buf r1.2 with
    | none => simp
    | some r2 =>
      simp only [Option.some_bind]
      cases h3 : Deserializer.read_outputs buf r2.2 with
      | none => simp
      | some r3 =>
        simp only [Option.some_bind]
        cases h4 : Deserializer.read_le_uint32 buf r3.2 with
        | none => simp
        | some r4 => simp

/-- Witness for `c10_segwit_legacy_refines`: a concrete 51-byte legacy
coinbase-style transaction (nonzero byte at offset 4), on which both decoders
agree and succeed. -/
theorem c10_segwit_legacy_refines_witness :
    DeserializerSegWit.read_tx_and_hash (fun x => x)
        ([1, 0, 0, 0, 1] ++ (List.replicate 32 0 ++
          [255, 255, 255, 255, 0, 255, 255, 255, 255, 0, 0, 0, 0, 0])) 0 =
      (Deserializer.read_tx_and_hash (fun x => x)
          ([1, 0, 0, 0, 1] ++ (List.replicate 32 0 ++
            [255, 255, 255, 255, 0, 255, 255, 255, 255, 0, 0, 0, 0, 0])) 0).map
        (fun r => ((ParsedTx.legacy r.1.1, r.1.2), r.2)) ∧
    (Deserializer.read_tx_and_hash (fun x => x)
        ([1, 0, 0, 0, 1] ++ (List.replicate 32 0 ++
          [255, 255, 255, 255, 0, 255, 255, 255, 255, 0, 0, 0, 0, 0])) 0).isSome =
      true := by
  constructor
  · exact c10_segwit_legacy_refines (fun x => x) _ 0 1 (by decide) (by decide)
  · decide

theorem segwit_parts_eval (hashFn : Bytes → Bytes) (buf : Bytes) (start : Nat)
    (ver : Int) (flag : Nat) (ins : List TxInput) (outs : List TxOutput)
    (w : List (List Bytes)) (lk p4 p5 p6 p7 : Nat)
    (hpk : Deserializer.read_byte buf (start + 4) = some (0, start + 5))
    (hv : Deserializer.read_le_int32 buf start = some (ver, start + 4))
    (hfl : Deserializer.read_byte buf (start + 5) = some (flag, start + 6))
    (hins : Deserializer.read_inputs buf (start + 6) = some (ins, p4))
    (houts : Deserializer.read_outputs buf p4 = some (outs, p5))
    (hw : DeserializerSegWit.read_witness buf ins.length p5 = some (w, p6))
    (hlk : Deserializer.read_le_uint32 buf p6 = some (lk, p7)) :
    DeserializerSegWit.read_tx_parts hashFn buf start =
      some ((ParsedTx.segwit ⟨ver, 0, flag, ins, outs, w, lk⟩,
        hashFn ((buf.drop start).take 4 ++
          ((buf.drop (start + 6)).take (p5 - (start + 6)) ++
            (buf.drop p6).take 4)),
        (3 * (p5 - (start + 6)) + buf.length) / 4), p7) := by
  have hp7 : p7 = p6 + 4 := (readLE_some hlk).2
  unfold DeserializerSegWit.read_tx_parts
  rw [hpk]
  simp only [Option.some_bind]
  rw [if_neg (by simp)]
  rw [hv]
  simp only [Option.some_bind]
  rw [hpk]
  simp only [Option.some_bind]
  rw [hfl]
  simp only [Option.some_bind]
  rw [hins]
  simp only [Option.some_bind]
  rw [houts]
  simp only [Option.some_bind]
  rw [hw]
  simp only [Option.some_bind]
  rw [hlk]
  simp only [Option.map_some']
  have e1 : start + 4 - start = 4 := by omega
  have e2 : p7 - p6 = 4 := by omega
  rw [e1, e2]

/-- C5: for every SegWit-encoded transaction (peeked byte at `start + 4` is
zero), the canonical id returned by `DeserializerSegWit._read_tx_parts` is
the hash of the reconstructed non-witness serialization: the 4 version
bytes, then the exact bytes of the inputs and outputs sections, then the 4
locktime bytes, with marker, flag and all witness bytes excluded. -/
theorem c5_segwit_txid (hashFn : Bytes → Bytes) (buf : Bytes) (start : Nat)
    (ver : Int) (flag : Nat) (ins : List TxInput) (outs : List TxOutput)
    (w : List (List Bytes)) (lk p4 p5 p6 p7 : Nat)
    (hpk : Deserializer.read_byte buf (start + 4) = some (0, start + 5))
    (hv : Deserializer.read_le_int32 buf start = some (ver, start + 4))
    (hfl : Deserializer.read_byte buf (start + 5) = some (flag, start + 6))
    (hins : Deserializer.read_inputs buf (start + 6) = some (ins, p4))
    (houts : Deserializer.read_outputs buf p4 = some (outs, p5))
    (hw : DeserializerSegWit.read_witness buf ins.length p5 = some (w, p6))
    (hlk : Deserializer.read_le_uint32 buf p6 = some (lk, p7)) :
    (DeserializerSegWit.read_tx_parts hashFn buf start).map (fun r => r.1.2.1) =
      some (hashFn ((buf.drop start).take 4 ++
        ((buf.drop (start + 6)).take (p5 - (start + 6)) ++
          (buf.drop p6).take 4))) := by
  rw [segwit_parts_eval hashFn buf start ver flag ins outs w lk p4 p5 p6 p7
    hpk hv hfl hins houts hw hlk]
  rfl

/-- C1 (amended): on the SegWit path the code computes
`vsize = (3 * base_size + total_size) / 4` where `base_size` is the byte
length of the inputs+outputs sections only — it excludes the version and
locktime fields as well as the marker, flag and witness bytes — and
`total_size` is the whole buffer length; so a transaction whose non-witness
serialization (version through locktime) is 100 bytes with total size 130
gets vsize 101, not 107. -/
theorem c1_vsize_amended (hashFn : Bytes → Bytes) (buf : Bytes) (start : Nat)
    (ver : Int) (flag : Nat) (ins : List TxInput) (outs : List TxOutput)
    (w : List (List Bytes)) (lk p4 p5 p6 p7 : Nat)
    (hpk : Deserializer.read_byte buf (start + 4) = some (0, start + 5))
    (hv : Deserializer.read_le_int32 buf start = some (ver, start + 4))
    (hfl : Deserializer.read_byte buf (start + 5) = some (flag, start + 6))
    (hins : Deserializer.read_inputs buf (start + 6) = some (ins, p4))
    (houts : Deserializer.read_outputs buf p4 = some (outs, p5))
    (hw : DeserializerSegWit.read_witness buf ins.length p5 = some (w, p6))
    (hlk : Deserializer.read_le_uint32 buf p6 = some (lk, p7)) :
    (DeserializerSegWit.read_tx_parts hashFn buf start).map (fun r => r.1.2.2) =
      some ((3 * (p5 - (start + 6)) + buf.length) / 4) := by
  rw [segwit_parts_eval hashFn buf start ver flag ins outs w lk p4 p5 p6 p7
    hpk hv hfl hins houts hw hlk]
  rfl

/-- A concrete 63-byte SegWit transaction: version 1, marker 0, flag 1, one
all-zero input, one zero-value output with empty script, one empty witness
stack, locktime 0. -/
def segwitDemoBuf : Bytes :=
  [1, 0, 0, 0, 0, 1, 1] ++ (List.replicate 32 0 ++
    ([0, 0, 0, 0, 0, 0, 0, 0, 0, 1] ++ (List.replicate 8 0 ++
      [0, 0, 0, 0, 0, 0])))

/-- Witness for `c5_segwit_txid` at `segwitDemoBuf` with the identity hash:
the hash preimage is version bytes, the 52-byte inputs+outputs section, and
the locktime bytes. -/
theorem c5_segwit_txid_witness :
    (DeserializerSegWit.read_tx_parts (fun x => x) segwitDemoBuf 0).map
        (fun r => r.1.2.1) =
      some ((segwitDemoBuf.drop 0).take 4 ++
        ((segwitDemoBuf.drop 6).take 52 ++ (segwitDemoBuf.drop 59).take 4)) := by
  have h := c5_segwit_txid (fun x => x) segwitDemoBuf 0 1 1
    [⟨List.replicate 32 0, 0, [], 0⟩] [⟨0, []⟩] [[]] 0 48 58 59 63
    (by decide) (by decide) (by decide) (by decide) (by decide) (by decide)
    (by decide)
  simpa using h

/-- Witness for `c1_vsize_amended` at `segwitDemoBuf`: the inputs+outputs
section is 52 bytes, the buffer 63 bytes, and the decoder returns
`(3 * 52 + 63) / 4 = 54`. -/
theorem c1_vsize_amended_witness :
    (DeserializerSegWit.read_tx_parts (fun x => x) segwitDemoBuf 0).map
        (fun r => r.1.2.2) = some 54 := by
  have h := c1_vsize_amended (fun x => x) segwitDemoBuf 0 1 1
    [⟨List.replicate 32 0, 0, [], 0⟩] [⟨0, []⟩] [[]] 0 48 58 59 63
    (by decide) (by decide) (by decide) (by decide) (by decide) (by decide)
    (by decide)
  simpa using h

/-- A concrete 130-byte SegWit transaction whose non-witness serialization
(version, inputs, outputs, locktime) is exactly 100 bytes: one input with a
40-byte output script, a 28-byte witness section, total size 130. -/
def c1DemoBuf : Bytes :=
  [1, 0, 0, 0, 0, 1, 1] ++ (List.replicate 32 0 ++
    ([0, 0, 0, 0, 0, 255, 255, 255, 255, 1] ++ (List.replicate 8 0 ++
      ([40] ++ (List.replicate 40 0 ++
        ([1, 26] ++ (List.replicate 26 0 ++ [0, 0, 0, 0])))))))

set_option maxRecDepth 8192 in
/-- C1 counterexample: the spec's vsize law (`base_size` excluding only
marker/flag/witness, hence 100 here, `total_size = 130`, so vsize
`floor(430/4) = 107`) fails on the code: the decoder's `base_size` is the
92-byte inputs+outputs span (excluding version and locktime too), giving
vsize `floor((276 + 130)/4) = 101`.  With the identity hash function the
hash component is the reconstructed non-witness serialization, whose length
100 is the claim's `base_size`. -/
theorem c1_vsize_counterexample :
    (DeserializerSegWit.read_tx_parts (fun x => x) c1DemoBuf 0).map
        (fun r => ((r.1.2.1).length, r.1.2.2)) = some (100, 101) ∧
    c1DemoBuf.length = 130 ∧
    (101 : Nat) ≠ (3 * 100 + 130) / 4 := by
  refine ⟨by decide, by decide, by decide⟩

/-- C2 (amended): with hash production enabled, the Decred canonical id is the
fork's hash function applied ONCE (`DeserializerDecred.blake256`, a single
BLAKE-256 round, not the double-round `blake256d`) to the reconstructed
no-witness serialization: the 4-byte little-endian header
`0x10000 | (version & 0xffff)` followed by the raw bytes from just after the
original version field through the end of the expiry field. -/
theorem c2_decred_hash_amended (blake : Bytes → Bytes) (buf : Bytes) (start : Nat)
    (ver : Int) (nIn nOut : Nat) (ins : List TxInputDcr) (outs : List TxOutputDcr)
    (lk expiry : Nat) (w : List DcrWitness) (p1 p2 p3 p4 p5 p6 p7 : Nat)
    (hv : Deserializer.read_le_int32 buf start = some (ver, start + 4))
    (hn : Deserializer.read_varint buf (start + 4) = some (nIn, p1))
    (hins : read_list DeserializerDecred.read_input nIn buf p1 = some (ins, p2))
    (hm : Deserializer.read_varint buf p2 = some (nOut, p3))
    (houts : read_list DeserializerDecred.read_output nOut buf p3 = some (outs, p4))
    (hlk : Deserializer.read_le_uint32 buf p4 = some (lk, p5))
    (hex : Deserializer.read_le_uint32 buf p5 = some (expiry, p6))
    (hw : DeserializerDecred.read_witness buf ins.length p6 = some (w, p7)) :
    (DeserializerDecred.read_tx_parts blake true buf start).map (fun r => r.1.2.1) =
      some (some (DeserializerDecred.blake256 blake
        (leBytes 4 (0x10000 + (ver % (0x10000 : Int)).toNat) ++
          (buf.drop (start + 4)).take (p6 - (start + 4))))) := by
  unfold DeserializerDecred.read_tx_parts
  rw [hv]
  simp only [Option.some_bind]
  rw [hn]
  simp only [Option.some_bind]
  rw [hins]
  simp only [Option.some_bind]
  rw [hm]
  simp only [Option.some_bind]
  rw [houts]
  simp only [Option.some_bind]
  rw [hlk]
  simp only [Option.some_bind]
  rw [hex]
  simp only [Option.some_bind]
  rw [hw]
  simp only [Option.map_some']
  rfl

/-- Witness for `c2_decred_hash_amended`: a minimal 15-byte Decred
transaction (no inputs, no outputs, empty witness array) with the concrete
hash collaborator `fun l => 0 :: l`; the produced id is one application of
that function to the reconstructed prefix `[1, 0, 1, 0] ++ ten zero bytes`
(serialization-type header `0x10000 | 1`). -/
theorem c2_decred_hash_amended_witness :
    (DeserializerDecred.read_tx_parts (fun l => 0 :: l) true
        [1, 0, 0, 0, 0, 0, 0, 0, 0, 0, 0, 0, 0, 0, 0] 0).map (fun r => r.1.2.1) =
      some (some (0 :: ([1, 0, 1, 0] ++ List.replicate 10 0))) := by
  have h := c2_decred_hash_amended (fun l => 0 :: l)
    [1, 0, 0, 0, 0, 0, 0, 0, 0, 0, 0, 0, 0, 0, 0] 0 1 0 0 [] [] 0 0 []
    5 5 6 6 10 14 15
    (by decide) (by decide) (by decide) (by decide) (by decide) (by decide)
    (by decide) (by decide)
  exact h.trans (by decide)

/-- C2 counterexample: the claim says the canonical id equals the
double-round hash (`blake256d`, BLAKE-256 applied twice) of the reconstructed
no-witness prefix; but the code applies `self.blake256` (one round).  With
the concrete hash collaborator `fun l => 0 :: l` and a minimal 15-byte
Decred transaction, the produced id is the single application, which differs
from the double application on the same prefix. -/
theorem c2_decred_hash_counterexample :
    (DeserializerDecred.read_tx_parts (fun l => 0 :: l) true
        [1, 0, 0, 0, 0, 0, 0, 0, 0, 0, 0, 0, 0, 0, 0] 0).map (fun r => r.1.2.1) =
      some (some (DeserializerDecred.blake256 (fun l => 0 :: l)
        ([1, 0, 1, 0] ++ List.replicate 10 0))) ∧
    DeserializerDecred.blake256 (fun l => 0 :: l)
        ([1, 0, 1, 0] ++ List.replicate 10 0) ≠
      DeserializerDecred.blake256d (fun l => 0 :: l)
        ([1, 0, 1, 0] ++ List.replicate 10 0) := by
  exact ⟨by decide, by decide⟩

/-- C4: on the Litecoin SegWit path (peeked byte at `start + 4` is zero):
a zero flag byte always raises the distinct skip outcome
(`SkipTxDeserialize`); with the MWEB bit (`flag & 8`) set, a nonzero byte
after the witness section also raises the skip outcome, while a zero byte
lets decoding continue to a normal transaction; and with the witness bit
(`flag & 1`) unset the witness list is empty rather than an error (third
conjunct with `flag &&& 1 = 0` forces `w = []`). -/
theorem c4_litecoin_mweb (hashFn : Bytes → Bytes) (buf : Bytes) (start : Nat) :
    (∀ ver, Deserializer.read_byte buf (start + 4) = some (0, start + 5) →
      Deserializer.read_le_int32 buf start = some (ver, start + 4) →
      Deserializer.read_byte buf (start + 5) = some (0, start + 6) →
      DeserializerLitecoin.read_tx_parts hashFn buf start = LtcR.skip) ∧
    (∀ (ver : Int) (flag : Nat) ins outs (w : List (List Bytes)) (p4 p5 p6 b : Nat),
      Deserializer.read_byte buf (start + 4) = some (0, start + 5) →
      Deserializer.read_le_int32 buf start = some (ver, start + 4) →
      Deserializer.read_byte buf (start + 5) = some (flag, start + 6) →
      flag ≠ 0 →
      Deserializer.read_inputs buf (start + 6) = some (ins, p4) →
      Deserializer.read_outputs buf p4 = some (outs, p5) →
      (if flag &&& 1 ≠ 0 then
        DeserializerSegWit.read_witness buf ins.length p5 = some (w, p6)
       else w = [] ∧ p6 = p5) →
      flag &&& 8 ≠ 0 →
      Deserializer.read_byte buf p6 = some (b, p6 + 1) →
      b ≠ 0 →
      DeserializerLitecoin.read_tx_parts hashFn buf start = LtcR.skip) ∧
    (∀ (ver : Int) (flag : Nat) ins outs (w : List (List Bytes))
        (p4 p5 p6 p7 lk p8 : Nat),
      Deserializer.read_byte buf (start + 4) = some (0, start + 5) →
      Deserializer.read_le_int32 buf start = some (ver, start + 4) →
      Deserializer.read_byte buf (start + 5) = some (flag, start + 6) →
      flag ≠ 0 →
      Deserializer.read_inputs buf (start + 6) = some (ins, p4) →
      Deserializer.read_outputs buf p4 = some (outs, p5) →
      (if flag &&& 1 ≠ 0 then
        DeserializerSegWit.read_witness buf ins.length p5 = some (w, p6)
       else w = [] ∧ p6 = p5) →
      (if flag &&& 8 ≠ 0 then
        Deserializer.read_byte buf p6 = some (0, p6 + 1) ∧ p7 = p6 + 1
       else p7 = p6) →
      Deserializer.read_le_uint32 buf p7 = some (lk, p8) →
      DeserializerLitecoin.read_tx_parts hashFn buf start =
        LtcR.ok (ParsedTx.segwit ⟨ver, 0, flag, ins, outs, w, lk⟩)
          (hashFn ((buf.drop start).take 4 ++
            ((buf.drop (start + 6)).take (p5 - (start + 6)) ++
              (buf.drop p7).take 4)))
          ((3 * (p5 - (start + 6)) + buf.length) / 4) p8) := by
  refine ⟨?_, ?_, ?_⟩
  · intro ver hpk hv hfl
    unfold DeserializerLitecoin.read_tx_parts
    rw [hpk]
    dsimp only
    rw [if_neg (by simp)]
    rw [hv]
    dsimp only
    rw [hpk]
    dsimp only
    rw [hfl]
    dsimp only
    rw [if_pos rfl]
  · intro ver flag ins outs w p4 p5 p6 b hpk hv hfl hfz hins houts hw h8 hb hbz
    unfold DeserializerLitecoin.read_tx_parts
    rw [hpk]
    dsimp only
    rw [if_neg (by simp)]
    rw [hv]
    dsimp only
    rw [hpk]
    dsimp only
    rw [hfl]
    dsimp only
    rw [if_neg (by simpa using hfz)]
    rw [hins]
    dsimp only
    rw [houts]
    dsimp only
    have hwit :
        (if flag &&& 1 ≠ 0 then DeserializerSegWit.read_witness buf ins.length p5
         else some ([], p5)) = some (w, p6) := by
      by_cases h1 : flag &&& 1 ≠ 0
      · rw [if_pos h1] at hw ⊢
        exact hw
      · rw [if_neg h1] at hw ⊢
        rw [hw.1, hw.2]
    rw [hwit]
    dsimp only
    rw [if_pos h8, hb]
    dsimp only
    rw [if_pos (by simpa using hbz)]
  · intro ver flag ins outs w p4 p5 p6 p7 lk p8 hpk hv hfl hfz hins houts hw hmw hlk
    have hp8 : p8 = p7 + 4 := (readLE_some hlk).2
    unfold DeserializerLitecoin.read_tx_parts
    rw [hpk]
    dsimp only
    rw [if_neg (by simp)]
    rw [hv]
    dsimp only
    rw [hpk]
    dsimp only
    rw [hfl]
    dsimp only
    rw [if_neg (by simpa using hfz)]
    rw [hins]
    dsimp only
    rw [houts]
    dsimp only
    have hwit :
        (if flag &&& 1 ≠ 0 then DeserializerSegWit.read_witness buf ins.length p5
         else some ([], p5)) = some (w, p6) := by
      by_cases h1 : flag &&& 1 ≠ 0
      · rw [if_pos h1] at hw ⊢
        exact hw
      · rw [if_neg h1] at hw ⊢
        rw [hw.1, hw.2]
    rw [hwit]
    dsimp only
    have hmwe :
        (if flag &&& 8 ≠ 0 then
          match Deserializer.read_byte buf p6 with
          | none => none
          | some rb => some (some rb.1, rb.2)
         else some (none, p6)) = some ((if flag &&& 8 ≠ 0 then some 0 else none), p7) := by
      by_cases h8 : flag &&& 8 ≠ 0
      · rw [if_pos h8] at hmw
        rw [if_pos h8, if_pos h8, hmw.1, hmw.2]
      · rw [if_neg h8] at hmw
        rw [if_neg h8, if_neg h8, hmw]
    rw [hmwe]
    dsimp only
    rw [if_neg (by by_cases h8 : flag &&& 8 ≠ 0 <;> simp [h8])]
    rw [hlk]
    dsimp only
    have e1 : start + 4 - start = 4 := by omega
    have e2 : p8 - p7 = 4 := by omega
    rw [e1, e2]

/-- Witness for `c4_litecoin_mweb` on three concrete buffers: a zero flag
yields the skip outcome; MWEB flag 8 followed (after empty input/output
sections) by a nonzero byte yields the skip outcome; the same with a zero
byte decodes to a normal transaction with an empty witness list. -/
theorem c4_litecoin_mweb_witness :
    DeserializerLitecoin.read_tx_parts (fun x => x) [1, 0, 0, 0, 0, 0] 0 =
      LtcR.skip ∧
    DeserializerLitecoin.read_tx_parts (fun x => x)
      [1, 0, 0, 0, 0, 8, 0, 0, 1] 0 = LtcR.skip ∧
    DeserializerLitecoin.read_tx_parts (fun x => x)
      [1, 0, 0, 0, 0, 8, 0, 0, 0, 0, 0, 0, 0] 0 =
      LtcR.ok (ParsedTx.segwit ⟨1, 0, 8, [], [], [], 0⟩)
        [1, 0, 0, 0, 0, 0, 0, 0, 0, 0] 4 13 := by
  refine ⟨?_, ?_, ?_⟩
  · exact (c4_litecoin_mweb (fun x => x) [1, 0, 0, 0, 0, 0] 0).1 1
      (by decide) (by decide) (by decide)
  · exact (c4_litecoin_mweb (fun x => x) [1, 0, 0, 0, 0, 8, 0, 0, 1] 0).2.1
      1 8 [] [] [] 7 8 8 1 (by decide) (by decide) (by decide) (by decide)
      (by decide) (by decide) (by decide) (by decide) (by decide) (by decide)
  · exact ((c4_litecoin_mweb (fun x => x)
      [1, 0, 0, 0, 0, 8, 0, 0, 0, 0, 0, 0, 0] 0).2.2
      1 8 [] [] [] 7 8 8 9 0 13 (by decide) (by decide) (by decide) (by decide)
      (by decide) (by decide) (by decide) (by decide) (by decide)).trans
      (by decide)

theorem segwit_parts_witness_count (hashFn : Bytes → Bytes) (buf : Bytes)
    (start : Nat) (s : TxSegWit) (hsh : Bytes) (vs pos : Nat)
    (h : DeserializerSegWit.read_tx_parts hashFn buf start =
      some ((ParsedTx.segwit s, hsh, vs), pos)) :
    s.witness.length = s.inputs.length := by
  unfold DeserializerSegWit.read_tx_parts at h
  rw [Option.bind_eq_some] at h
  obtain ⟨pk, hpk, h⟩ := h
  by_cases hz : pk.1 ≠ 0
  · rw [if_pos hz] at h
    rw [Option.bind_eq_some] at h
    obtain ⟨r1, h1, h⟩ := h
    rw [Option.bind_eq_some] at h
    obtain ⟨r2, h2, h⟩ := h
    rw [Option.bind_eq_some] at h
    obtain ⟨r3, h3, h⟩ := h
    rw [Option.map_eq_some'] at h
    obtain ⟨r4, h4, h⟩ := h
    simp [Prod.ext_iff] at h
  · rw [if_neg hz] at h
    rw [Option.bind_eq_some] at h
    obtain ⟨r1, h1, h⟩ := h
    rw [Option.bind_eq_some] at h
    obtain ⟨rm, hm, h⟩ := h
    rw [Option.bind_eq_some] at h
    obtain ⟨rf, hf, h⟩ := h
    rw [Option.bind_eq_some] at h
    obtain ⟨r2, h2, h⟩ := h
    rw [Option.bind_eq_some] at h
    obtain ⟨r3, h3, h⟩ := h
    rw [Option.bind_eq_some] at h
    obtain ⟨rw0, hw0, h⟩ := h
    rw [Option.map_eq_some'] at h
    obtain ⟨rl, hl, h⟩ := h
    have hs : s = ⟨r1.1, rm.1, rf.1, r2.1, r3.1, rw0.1, rl.1⟩ := by
      have := congrArg (fun q => q.1.1) h
      simpa using this.symm
    have hlen : rw0.1.length = r2.1.length :=
      read_list_length hw0
    rw [hs]
    exact hlen

theorem ltc_ok_segwit_inv (hashFn : Bytes → Bytes) (buf : Bytes) (start : Nat)
    (s : TxSegWit) (hsh : Bytes) (vs pos : Nat)
    (h : DeserializerLitecoin.read_tx_parts hashFn buf start =
      LtcR.ok (ParsedTx.segwit s) hsh vs pos) :
    (s.flag &&& 1 ≠ 0 → s.witness.length = s.inputs.length) ∧
    (s.flag &&& 1 = 0 → s.witness = []) := by
  unfold DeserializerLitecoin.read_tx_parts at h
  cases hpk : Deserializer.read_byte buf (start + 4) with
  | none => rw [hpk] at h; simp at h
  | some pk =>
  rw [hpk] at h
  dsimp only at h
  by_cases hz : pk.1 ≠ 0
  · rw [if_pos hz] at h
    cases h1 : Deserializer.read_le_int32 buf start with
    | none => rw [h1] at h; simp at h
    | some r1 =>
    rw [h1] at h; dsimp only at h
    cases h2 : Deserializer.read_inputs buf r1.2 with
    | none => rw [h2] at h; simp at h
    | some r2 =>
    rw [h2] at h; dsimp only at h
    cases h3 : Deserializer.read_outputs buf r2.2 with
    | none => rw [h3] at h; simp at h
    | some r3 =>
    rw [h3] at h; dsimp only at h
    cases h4 : Deserializer.read_le_uint32 buf r3.2 with
    | none => rw [h4] at h; simp at h
    | some r4 =>
    rw [h4] at h; dsimp only at h
    simp at h
  · rw [if_neg hz] at h
    cases h1 : Deserializer.read_le_int32 buf start with
    | none => rw [h1] at h; simp at h
    | some r1 =>
    rw [h1] at h; dsimp only at h
    cases hm : Deserializer.read_byte buf r1.2 with
    | none => rw [hm] at h; simp at h
    | some rm =>
    rw [hm] at h; dsimp only at h
    cases hf : Deserializer.read_byte buf rm.2 with
    | none => rw [hf] at h; simp at h
    | some rf =>
    rw [hf] at h; dsimp only at h
    by_cases hf0 : rf.1 = 0
    · rw [if_pos hf0] at h; simp at h
    · rw [if_neg hf0] at h
      cases h2 : Deserializer.read_inputs buf rf.2 with
      | none => rw [h2] at h; simp at h
      | some r2 =>
      rw [h2] at h; dsimp only at h
      cases h3 : Deserializer.read_outputs buf r2.2 with
      | none => rw [h3] at h; simp at h
      | some r3 =>
      rw [h3] at h; dsimp only at h
      cases hw0 : (if rf.1 &&& 1 ≠ 0 then
          DeserializerSegWit.read_witness buf r2.1.length r3.2
        else some ([], r3.2)) with
      | none => rw [hw0] at h; simp at h
      | some rw0 =>
      rw [hw0] at h; dsimp only at h
      cases hmw : (if rf.1 &&& 8 ≠ 0 then
          match Deserializer.read_byte buf rw0.2 with
          | none => none
          | some rb => some (some rb.1, rb.2)
        else some (none, rw0.2)) with
      | none => rw [hmw] at h; simp at h
      | some rmw =>
      rw [hmw] at h; dsimp only at h
      by_cases hskip : rmw.1.getD 0 ≠ 0
      · rw [if_pos hskip] at h; simp at h
      · rw [if_neg hskip] at h
        cases hl : Deserializer.read_le_uint32 buf rmw.2 with
        | none => rw [hl] at h; simp at h
        | some rl =>
        rw [hl] at h; dsimp only at h
        simp only [LtcR.ok.injEq] at h
        obtain ⟨hseq, -, -, -⟩ := h
        simp only [ParsedTx.segwit.injEq] at hseq
        have hs : s = ⟨r1.1, rm.1, rf.1, r2.1, r3.1, rw0.1, rl.1⟩ := hseq.symm
        subst hs
        constructor
        · intro hbit
          dsimp only at hbit ⊢
          rw [if_pos hbit] at hw0
          exact read_list_length hw0
        · intro hbit
          dsimp only at hbit ⊢
          rw [if_neg (by simpa using hbit)] at hw0
          have := Option.some.inj hw0
          rw [← this]

theorem dcr_read_witness_inv {buf : Bytes} {fields pos : Nat}
    {r : List DcrWitness × Nat}
    (h : DeserializerDecred.read_witness buf fields pos = some r) :
    r.1.length = fields := by
  unfold DeserializerDecred.read_witness at h
  rw [Option.bind_eq_some] at h
  obtain ⟨rn, hn, h⟩ := h
  by_cases he : fields = rn.1
  · rw [if_pos he] at h
    exact read_list_length h
  · rw [if_neg he] at h
    exact absurd h (by simp)

theorem dcr_parts_witness_count (blake : Bytes → Bytes) (ph : Bool) (buf : Bytes)
    (start : Nat) (t : TxDcr) (oh : Option Bytes) (sz pos : Nat)
    (h : DeserializerDecred.read_tx_parts blake ph buf start =
      some ((t, oh, sz), pos)) :
    t.witness.length = t.inputs.length := by
  unfold DeserializerDecred.read_tx_parts at h
  rw [Option.bind_eq_some] at h
  obtain ⟨r1, h1, h⟩ := h
  rw [Option.bind_eq_some] at h
  obtain ⟨rn, hn, h⟩ := h
  rw [Option.bind_eq_some] at h
  obtain ⟨r2, h2, h⟩ := h
  rw [Option.bind_eq_some] at h
  obtain ⟨rm, hm, h⟩ := h
  rw [Option.bind_eq_some] at h
  obtain ⟨r3, h3, h⟩ := h
  rw [Option.bind_eq_some] at h
  obtain ⟨r4, h4, h⟩ := h
  rw [Option.bind_eq_some] at h
  obtain ⟨r5, h5, h⟩ := h
  rw [Option.map_eq_some'] at h
  obtain ⟨rw0, hw0, h⟩ := h
  have hlen := dcr_read_witness_inv hw0
  have ht : t = ⟨r1.1, r2.1, r3.1, r4.1, r5.1, rw0.1⟩ := by
    have := congrArg (fun q => q.1.1) h
    simpa using this.symm
  rw [ht]
  exact hlen

theorem dcr_parts_count_mismatch (blake : Bytes → Bytes) (ph : Bool) (buf : Bytes)
    (start : Nat) (ver : Int) (nIn nOut : Nat) (ins : List TxInputDcr)
    (outs : List TxOutputDcr) (lk expiry : Nat) (p1 p2 p3 p4 p5 p6 : Nat)
    (nw q : Nat)
    (hv : Deserializer.read_le_int32 buf start = some (ver, start + 4))
    (hn : Deserializer.read_varint buf (start + 4) = some (nIn, p1))
    (hins : read_list DeserializerDecred.read_input nIn buf p1 = some (ins, p2))
    (hm : Deserializer.read_varint buf p2 = some (nOut, p3))
    (houts : read_list DeserializerDecred.read_output nOut buf p3 = some (outs, p4))
    (hlk : Deserializer.read_le_uint32 buf p4 = some (lk, p5))
    (hex : Deserializer.read_le_uint32 buf p5 = some (expiry, p6))
    (hwv : Deserializer.read_varint buf p6 = some (nw, q))
    (hne : ins.length ≠ nw) :
    DeserializerDecred.read_tx_parts blake ph buf start = none := by
  unfold DeserializerDecred.read_tx_parts
  rw [hv]
  simp only [Option.some_bind]
  rw [hn]
  simp only [Option.some_bind]
  rw [hins]
  simp only [Option.some_bind]
  rw [hm]
  simp only [Option.some_bind]
  rw [houts]
  simp only [Option.some_bind]
  rw [hlk]
  simp only [Option.some_bind]
  rw [hex]
  simp only [Option.some_bind]
  unfold DeserializerDecred.read_witness
  rw [hwv]
  simp only [Option.some_bind]
  have hwn : (if ins.length = nw then
      read_list DeserializerDecred.read_witness_field ins.length buf q
    else none) = (none : Option (List DcrWitness × Nat)) := if_neg hne
  rw [hwn]
  rfl


/-- C7 (amended): every transaction successfully decoded down the SegWit
branch of `DeserializerSegWit._read_tx_parts` carries exactly one witness
stack per input; for the Litecoin variant this holds whenever the witness bit
(`flag & 1`) is set, while with the witness bit unset the witness list is
empty regardless of the input count (so witness count need NOT equal input
count there, see the counterexample); for Decred the witness array's own
varint count must equal the input count or decoding fails, and on success
the witness count equals the input count. -/
theorem c7_witness_count_amended :
    (∀ (hashFn : Bytes → Bytes) (buf : Bytes) (start : Nat) (s : TxSegWit)
        (hsh : Bytes) (vs pos : Nat),
      DeserializerSegWit.read_tx_parts hashFn buf start =
        some ((ParsedTx.segwit s, hsh, vs), pos) →
      s.witness.length = s.inputs.length) ∧
    (∀ (hashFn : Bytes → Bytes) (buf : Bytes) (start : Nat) (s : TxSegWit)
        (hsh : Bytes) (vs pos : Nat),
      DeserializerLitecoin.read_tx_parts hashFn buf start =
        LtcR.ok (ParsedTx.segwit s) hsh vs pos →
      (s.flag &&& 1 ≠ 0 → s.witness.length = s.inputs.length) ∧
      (s.flag &&& 1 = 0 → s.witness = [])) ∧
    (∀ (blake : Bytes → Bytes) (ph : Bool) (buf : Bytes) (start : Nat)
        (t : TxDcr) (oh : Option Bytes) (sz pos : Nat),
      DeserializerDecred.read_tx_parts blake ph buf start =
        some ((t, oh, sz), pos) →
      t.witness.length = t.inputs.length) ∧
    (∀ (blake : Bytes → Bytes) (ph : Bool) (buf : Bytes) (start : Nat)
        (ver : Int) (nIn nOut : Nat) (ins : List TxInputDcr)
        (outs : List TxOutputDcr) (lk expiry p1 p2 p3 p4 p5 p6 nw q : Nat),
      Deserializer.read_le_int32 buf start = some (ver, start + 4) →
      Deserializer.read_varint buf (start + 4) = some (nIn, p1) →
      read_list DeserializerDecred.read_input nIn buf p1 = some (ins, p2) →
      Deserializer.read_varint buf p2 = some (nOut, p3) →
      read_list DeserializerDecred.read_output nOut buf p3 = some (outs, p4) →
      Deserializer.read_le_uint32 buf p4 = some (lk, p5) →
      Deserializer.read_le_uint32 buf p5 = some (expiry, p6) →
      Deserializer.read_varint buf p6 = some (nw, q) →
      ins.length ≠ nw →
      DeserializerDecred.read_tx_parts blake ph buf start = none) := by
  refine ⟨?_, ?_, ?_, ?_⟩
  · intro hashFn buf start s hsh vs pos h
    exact segwit_parts_witness_count hashFn buf start s hsh vs pos h
  · intro hashFn buf start s hsh vs pos h
    exact ltc_ok_segwit_inv hashFn buf start s hsh vs pos h
  · intro blake ph buf start t oh sz pos h
    exact dcr_parts_witness_count blake ph buf start t oh sz pos h
  · intro blake ph buf start ver nIn nOut ins outs lk expiry p1 p2 p3 p4 p5 p6
      nw q hv hn hins hm houts hlk hex hwv hne
    exact dcr_parts_count_mismatch blake ph buf start ver nIn nOut ins outs
      lk expiry p1 p2 p3 p4 p5 p6 nw q hv hn hins hm houts hlk hex hwv hne

/-- Witness for `c7_witness_count_amended` at concrete buffers: the demo
SegWit transaction has one witness stack for its one input; the Litecoin
MWEB-only decode yields flag 8 with an empty witness list; a minimal Decred
transaction has equal (empty) witness and input lists; a Decred buffer whose
witness varint is 1 with 0 inputs fails to decode. -/
theorem c7_witness_count_amended_witness :
    ([[]] : List (List Bytes)).length =
      ([⟨List.replicate 32 0, 0, [], 0⟩] : List TxInput).length ∧
    (((8 : Nat) &&& 1 ≠ 0 → ([] : List (List Bytes)).length =
        ([] : List TxInput).length) ∧
      ((8 : Nat) &&& 1 = 0 → ([] : List (List Bytes)) = [])) ∧
    ([] : List DcrWitness).length = ([] : List TxInputDcr).length ∧
    DeserializerDecred.read_tx_parts (fun l => 0 :: l) true
      [1, 0, 0, 0, 0, 0, 0, 0, 0, 0, 0, 0, 0, 0, 1] 0 = none := by
  refine ⟨?_, ?_, ?_, ?_⟩
  · exact c7_witness_count_amended.1 (fun x => x) segwitDemoBuf 0
      ⟨1, 0, 1, [⟨List.replicate 32 0, 0, [], 0⟩], [⟨0, []⟩], [[]], 0⟩
      ((segwitDemoBuf.drop 0).take 4 ++
        ((segwitDemoBuf.drop 6).take 52 ++ (segwitDemoBuf.drop 59).take 4))
      54 63 (by decide)
  · exact c7_witness_count_amended.2.1 (fun x => x)
      [1, 0, 0, 0, 0, 8, 0, 0, 0, 0, 0, 0, 0] 0 ⟨1, 0, 8, [], [], [], 0⟩
      [1, 0, 0, 0, 0, 0, 0, 0, 0, 0] 4 13 (by decide)
  · exact c7_witness_count_amended.2.2.1 (fun l => 0 :: l) true
      [1, 0, 0, 0, 0, 0, 0, 0, 0, 0, 0, 0, 0, 0, 0] 0 ⟨1, [], [], 0, 0, []⟩
      (some (0 :: ([1, 0, 1, 0] ++ List.replicate 10 0))) 15 15 (by decide)
  · exact c7_witness_count_amended.2.2.2 (fun l => 0 :: l) true
      [1, 0, 0, 0, 0, 0, 0, 0, 0, 0, 0, 0, 0, 0, 1] 0 1 0 0 [] [] 0 0
      5 5 6 6 10 14 1 15 (by decide) (by decide) (by decide) (by decide)
      (by decide) (by decide) (by decide) (by decide) (by decide)

/-- C7 counterexample: the claim requires every successfully decoded
transaction of a SegWit-family variant, including Litecoin, to carry one
witness stack per input; but the Litecoin decoder with witness bit unset
(flag 2) successfully decodes a one-input transaction with an empty witness
list (0 stacks for 1 input). -/
theorem c7_witness_count_counterexample :
    DeserializerLitecoin.read_tx_parts (fun x => x)
      ([1, 0, 0, 0, 0, 2, 1] ++ (List.replicate 32 0 ++
        [0, 0, 0, 0, 0, 0, 0, 0, 0, 0, 0, 0, 0, 0])) 0 =
      LtcR.ok (ParsedTx.segwit
        ⟨1, 0, 2, [⟨List.replicate 32 0, 0, [], 0⟩], [], [], 0⟩)
        ([1, 0, 0, 0, 1] ++ List.replicate 46 0) 45 53 ∧
    ([] : List (List Bytes)).length ≠
      ([⟨List.replicate 32 0, 0, [], 0⟩] : List TxInput).length := by
  exact ⟨by decide, by decide⟩

/-- Embedding of `DeserializerSegWit.read_tx` (the first component of
`_read_tx_parts`, with the final cursor kept for specification purposes). -/
def DeserializerSegWit.read_tx (hashFn : Bytes → Bytes) (buf : Bytes) (start : Nat) :
    Option (ParsedTx × Nat) :=
  (DeserializerSegWit.read_tx_parts hashFn buf start).map fun r => (r.1.1, r.2)

theorem pt_read_witness_field {st : List Bytes} (h : wfStack st) :
    ParsesTo DeserializerSegWit.read_witness_field (serializeWitnessStack st) st := by
  obtain ⟨hn, hitems⟩ := h
  exact pt_bind
    (k := fun m buf pos => read_list Deserializer.read_varbytes m buf pos)
    (pt_read_varint hn)
    (pt_read_list (fun bs hbs => pt_read_varbytes (hitems bs hbs).1))

theorem pt_read_witness {ws : List (List Bytes)}
    (h : ∀ st ∈ ws, wfStack st) :
    ParsesTo (fun buf pos => DeserializerSegWit.read_witness buf ws.length pos)
      ((ws.map serializeWitnessStack).flatten) ws :=
  pt_read_list (fun st hst => pt_read_witness_field (h st hst))

theorem segwit_roundtrip {s : TxSegWit} (hashFn : Bytes → Bytes) (h : wfSegWit s) :
    DeserializerSegWit.read_tx hashFn s.serialize 0 =
      some (ParsedTx.segwit s, s.serialize.length) := by
  obtain ⟨hv1, hv2, hm0, hfl, hni, hno, hins, houts, hwlen, hww, hlock⟩ := h
  have hl4 : (pack_le_int32 s.version).length = 4 := by
    simp [pack_le_int32, length_leBytes]
  -- byte sections
  set bI : Bytes :=
    pack_varint s.inputs.length ++ (s.inputs.map TxInput.serialize).flatten with hbI
  set bO : Bytes :=
    pack_varint s.outputs.length ++ (s.outputs.map TxOutput.serialize).flatten with hbO
  set bW : Bytes := (s.witness.map serializeWitnessStack).flatten with hbW
  set bL : Bytes := pack_le_uint32 s.locktime with hbL
  have hser : s.serialize =
      pack_le_int32 s.version ++
        ([s.marker] ++ ([s.flag] ++ (bI ++ (bO ++ (bW ++ bL))))) := by
    simp [TxSegWit.serialize, hbI, hbO, hbW, hbL, List.append_assoc]
  -- stage hypotheses
  have hpk : Deserializer.read_byte s.serialize 4 = some (0, 5) := by
    have h0 := pt_read_byte s.marker (pack_le_int32 s.version)
      ([s.flag] ++ (bI ++ (bO ++ (bW ++ bL))))
    rw [← hser] at h0
    rw [hl4] at h0
    rw [hm0] at h0
    simpa using h0
  have hv : Deserializer.read_le_int32 s.serialize 0 = some (s.version, 4) := by
    have h0 := pt_read_le_int32 hv1 hv2 []
      ([s.marker] ++ ([s.flag] ++ (bI ++ (bO ++ (bW ++ bL)))))
    simp only [List.nil_append, List.length_nil, Nat.zero_add] at h0
    rw [← hser] at h0
    rw [hl4] at h0
    simpa using h0
  have hflb : Deserializer.read_byte s.serialize 5 = some (s.flag, 6) := by
    have h0 := pt_read_byte s.flag (pack_le_int32 s.version ++ [s.marker])
      (bI ++ (bO ++ (bW ++ bL)))
    have e : (pack_le_int32 s.version ++ [s.marker]) ++
        ([s.flag] ++ (bI ++ (bO ++ (bW ++ bL)))) = s.serialize := by
      rw [hser]
      simp [List.append_assoc]
    rw [e] at h0
    have el : (pack_le_int32 s.version ++ [s.marker]).length = 5 := by
      simp [hl4]
    rw [el] at h0
    simpa using h0
  have hinsb : Deserializer.read_inputs s.serialize 6 =
      some (s.inputs, 6 + bI.length) := by
    have h0 := pt_read_inputs hni hins (pack_le_int32 s.version ++ [s.marker, s.flag])
      (bO ++ (bW ++ bL))
    have e : (pack_le_int32 s.version ++ [s.marker, s.flag]) ++
        (bI ++ (bO ++ (bW ++ bL))) = s.serialize := by
      rw [hser]
      simp [List.append_assoc]
    rw [← hbI] at h0
    rw [e] at h0
    have el : (pack_le_int32 s.version ++ [s.marker, s.flag]).length = 6 := by
      simp [hl4]
    rw [el] at h0
    exact h0
  have houtsb : Deserializer.read_outputs s.serialize (6 + bI.length) =
      some (s.outputs, 6 + bI.length + bO.length) := by
    have h0 := pt_read_outputs hno houts
      ((pack_le_int32 s.version ++ [s.marker, s.flag]) ++ bI) (bW ++ bL)
    have e : ((pack_le_int32 s.version ++ [s.marker, s.flag]) ++ bI) ++
        (bO ++ (bW ++ bL)) = s.serialize := by
      rw [hser]
      simp [List.append_assoc]
    rw [← hbO] at h0
    rw [e] at h0
    have el : ((pack_le_int32 s.version ++ [s.marker, s.flag]) ++ bI).length =
        6 + bI.length := by
      simp [hl4]
      omega
    rw [el] at h0
    exact h0
  have hwb : DeserializerSegWit.read_witness s.serialize s.inputs.length
      (6 + bI.length + bO.length) =
      some (s.witness, 6 + bI.length + bO.length + bW.length) := by
    have h0 := pt_read_witness hww
      (((pack_le_int32 s.version ++ [s.marker, s.flag]) ++ bI) ++ bO) bL
    have e : (((pack_le_int32 s.version ++ [s.marker, s.flag]) ++ bI) ++ bO) ++
        (bW ++ bL) = s.serialize := by
      rw [hser]
      simp [List.append_assoc]
    rw [← hbW] at h0
    rw [e] at h0
    have el : ((((pack_le_int32 s.version ++ [s.marker, s.flag]) ++ bI) ++ bO)).length =
        6 + bI.length + bO.length := by
      simp [hl4]
      omega
    rw [el] at h0
    rw [hwlen] at h0
    exact h0
  have hlkb : Deserializer.read_le_uint32 s.serialize
      (6 + bI.length + bO.length + bW.length) =
      some (s.locktime, 6 + bI.length + bO.length + bW.length + 4) := by
    have h0 := pt_read_le_uint32 hlock
      ((((pack_le_int32 s.version ++ [s.marker, s.flag]) ++ bI) ++ bO) ++ bW) []
    have e : ((((pack_le_int32 s.version ++ [s.marker, s.flag]) ++ bI) ++ bO) ++ bW) ++
        (bL ++ []) = s.serialize := by
      rw [hser]
      simp [List.append_assoc]
    rw [← hbL] at h0
    rw [e] at h0
    have el : (((((pack_le_int32 s.version ++ [s.marker, s.flag]) ++ bI) ++ bO) ++ bW)).length =
        6 + bI.length + bO.length + bW.length := by
      simp [hl4]
      omega
    rw [el] at h0
    have elb : bL.length = 4 := by
      simp [hbL, pack_le_uint32, length_leBytes]
    rw [elb] at h0
    exact h0
  have heval := segwit_parts_eval hashFn s.serialize 0 s.version s.flag s.inputs
    s.outputs s.witness s.locktime (6 + bI.length) (6 + bI.length + bO.length)
    (6 + bI.length + bO.length + bW.length) (6 + bI.length + bO.length + bW.length + 4)
    (by simpa using hpk) (by simpa using hv) (by simpa using hflb)
    (by simpa using hinsb) houtsb hwb hlkb
  have elb4 : bL.length = 4 := by
    simp [hbL, pack_le_uint32, length_leBytes]
  have hslen : s.serialize.length = 6 + bI.length + bO.length + bW.length + 4 := by
    rw [hser]
    simp only [List.length_append, List.length_cons, List.length_nil, hl4]
    omega
  have hsx : (⟨s.version, 0, s.flag, s.inputs, s.outputs, s.witness,
      s.locktime⟩ : TxSegWit) = s := by
    rw [← hm0]
  unfold DeserializerSegWit.read_tx
  rw [heval]
  simp only [Option.map_some']
  rw [hsx, hslen]


/-- Serialization of a decoded SegWit-family result: the legacy variant uses
`Tx.serialize` from the source, the SegWit variant the spec-modelled
`TxSegWit.serialize`. -/
def ParsedTx.serialize : ParsedTx → Bytes
  | .legacy t => t.serialize
  | .segwit s => s.serialize

/-- C6: for every validly constructed legacy transaction value and every
validly constructed SegWit transaction value, decoding its serialization
returns exactly that value (consuming the whole buffer), hence serializing
the decoded value reproduces the original bytes:
`serialize(decode(bytes)) == bytes`. -/
theorem c6_roundtrip :
    (∀ t : Tx, wfTx t →
      Deserializer.read_tx t.serialize 0 = some (t, t.serialize.length)) ∧
    (∀ t : Tx, wfTx t →
      (Deserializer.read_tx t.serialize 0).map (fun r => r.1.serialize) =
        some t.serialize) ∧
    (∀ (hashFn : Bytes → Bytes) (s : TxSegWit), wfSegWit s →
      DeserializerSegWit.read_tx hashFn s.serialize 0 =
        some (ParsedTx.segwit s, s.serialize.length)) ∧
    (∀ (hashFn : Bytes → Bytes) (s : TxSegWit), wfSegWit s →
      (DeserializerSegWit.read_tx hashFn s.serialize 0).map
        (fun r => r.1.serialize) = some s.serialize) := by
  have hleg : ∀ t : Tx, wfTx t →
      Deserializer.read_tx t.serialize 0 = some (t, t.serialize.length) := by
    intro t h
    have h0 := pt_read_tx h [] []
    simpa using h0
  refine ⟨hleg, ?_, ?_, ?_⟩
  · intro t h
    rw [hleg t h]
    rfl
  · intro hashFn s h
    exact segwit_roundtrip hashFn h
  · intro hashFn s h
    rw [segwit_roundtrip hashFn h]
    rfl

/-- A concrete legacy coinbase-style transaction value. -/
def legacyDemoTx : Tx :=
  ⟨1, [⟨List.replicate 32 0, 4294967295, [], 4294967295⟩],
    [⟨5000000000, [0]⟩], 0⟩

/-- A concrete SegWit transaction value with one input carrying one witness
stack of one item. -/
def segwitDemoTx : TxSegWit :=
  ⟨1, 0, 1, [⟨List.replicate 32 0, 0, [2, 3], 4⟩], [⟨7, [9]⟩], [[[5, 6]]], 0⟩

/-- Witness for `c6_roundtrip`: the two demo transaction values round-trip
through serialize-then-decode. -/
theorem c6_roundtrip_witness :
    Deserializer.read_tx legacyDemoTx.serialize 0 =
      some (legacyDemoTx, legacyDemoTx.serialize.length) ∧
    DeserializerSegWit.read_tx (fun x => x) segwitDemoTx.serialize 0 =
      some (ParsedTx.segwit segwitDemoTx, segwitDemoTx.serialize.length) := by
  refine ⟨c6_roundtrip.1 legacyDemoTx ?_, c6_roundtrip.2.2.1 (fun x => x)
    segwitDemoTx ?_⟩
  · unfold wfTx wfInput wfOutput wfBytes
    decide
  · unfold wfSegWit wfInput wfOutput wfStack wfBytes
    decide
